import Mathlib

/-!
Verification of the GRUB FAT driver (`src/fs/fat.c`) against its
natural-language specification.

The C source is shallowly embedded: the block device is a total function
from absolute byte addresses to byte values, machine integers are `Nat`
with explicit `% 2^w` where the C code's fixed-width arithmetic can wrap,
and fallible operations return `Except`/`Option`.  The embedding follows
the 32-bit GRUB target (where `unsigned long` and `grub_uint32_t`
coincide, so the `~0UL` sentinel stored in the 32-bit fields compares
equal to them again).
-/

deriving instance DecidableEq for Except

namespace Fat

/-- A raw block device, as a total map from absolute byte address to byte
value.  `grub_disk_read (disk, sector, offset, size, buf)` reads `size`
bytes starting at byte address `sector * 512 + offset`; device failures
are not modelled (reads always succeed). -/
def Disk : Type := Nat → Nat

/-- Little-endian decoding of `n` bytes starting at `addr`
(`grub_le_to_cpu16` / `grub_le_to_cpu32` applied to a disk read). -/
def readLE (disk : Disk) (addr : Nat) : Nat → Nat
  | 0 => 0
  | n + 1 => disk addr + 256 * readLE disk (addr + 1) n

/-- The `n` bytes starting at byte address `addr`. -/
def readBytes (disk : Disk) (addr n : Nat) : List Nat :=
  (List.range n).map (fun i => disk (addr + i))

/-- `struct grub_fat_bpb` (packed, little-endian), decoded from the first
sector.  Field byte offsets follow the declaration order in the source. -/
structure Bpb where
  bytes_per_sector : Nat
  sectors_per_cluster : Nat
  num_reserved_sectors : Nat
  num_fats : Nat
  num_root_entries : Nat
  num_total_sectors_16 : Nat
  media : Nat
  sectors_per_fat_16 : Nat
  sectors_per_track : Nat
  num_heads : Nat
  num_hidden_sectors : Nat
  num_total_sectors_32 : Nat
  sectors_per_fat_32 : Nat
  extended_flags : Nat
  fs_version : Nat
  root_cluster : Nat
  fs_info : Nat
  backup_boot_sector : Nat
deriving DecidableEq

/-- Decode the BPB from byte 0 of the device (the `grub_disk_read` of
`sizeof (bpb)` bytes at sector 0, offset 0, plus the little-endian field
decodes). -/
def bpbOfDisk (disk : Disk) : Bpb where
  bytes_per_sector := readLE disk 11 2
  sectors_per_cluster := readLE disk 13 1
  num_reserved_sectors := readLE disk 14 2
  num_fats := readLE disk 16 1
  num_root_entries := readLE disk 17 2
  num_total_sectors_16 := readLE disk 19 2
  media := readLE disk 21 1
  sectors_per_fat_16 := readLE disk 22 2
  sectors_per_track := readLE disk 24 2
  num_heads := readLE disk 26 2
  num_hidden_sectors := readLE disk 28 4
  num_total_sectors_32 := readLE disk 32 4
  sectors_per_fat_32 := readLE disk 36 4
  extended_flags := readLE disk 40 2
  fs_version := readLE disk 42 2
  root_cluster := readLE disk 44 4
  fs_info := readLE disk 48 2
  backup_boot_sector := readLE disk 50 2

/-- The loop `for (i = 0; (x & 1) == 0; i++) x >>= 1;` of `fat_log2`:
strip trailing zero bits, counting them.  Structural fuel stands in for
the C loop's unbounded iteration; any fuel at least the number of
trailing zero bits yields the loop's exit value, and `fat_log2` passes
`x` itself, which suffices. -/
def fat_log2_aux : Nat → Nat → Nat → Nat × Nat
  | 0, x, i => (x, i)
  | fuel + 1, x, i =>
    if x % 2 = 0 ∧ 0 < x then fat_log2_aux fuel (x / 2) (i + 1) else (x, i)

/-- `fat_log2`: the exact binary logarithm, or `-1` if the argument is
zero or not a power of two. -/
def fat_log2 (x : Nat) : Int :=
  if x = 0 then -1
  else
    let p := fat_log2_aux x x 0
    if p.1 ≠ 1 then -1 else (p.2 : Int)

/-- `struct grub_fat_data`: the volume handle built by `grub_fat_mount`
plus the current file/dir state.  All fields are `grub_uint32_t` or
narrower in the source except `logical_sector_bits`, `cluster_bits`,
`fat_size` (int) and `file_size` (`grub_ssize_t`). -/
structure FatData where
  logical_sector_bits : Nat
  num_sectors : Nat
  fat_sector : Nat
  sectors_per_fat : Nat
  fat_size : Nat
  root_cluster : Nat
  root_sector : Nat
  num_root_sectors : Nat
  cluster_bits : Nat
  cluster_eof_mark : Nat
  cluster_sector : Nat
  num_clusters : Nat
  attr : Nat
  file_size : Nat
  file_cluster : Nat
  cur_cluster_num : Nat
  cur_cluster : Nat
deriving DecidableEq

/-- The final stretch of `grub_fat_mount` (from the "More sanity checks"
comment on): the `num_sectors <= fat_sector` check, the FAT-ID probe of
the first FAT entry against the media/magic pattern, and the construction
of the handle.  `cur_cluster` is left uninitialised by the C code and is
modelled as 0; `file_size` likewise. -/
def grub_fat_mount_tail (disk : Disk) (bpb : Bpb)
    (logical_sector_bits num_sectors fat_sector sectors_per_fat
     root_sector num_root_sectors cluster_bits cluster_sector num_clusters
     fat_size cluster_eof_mark root_cluster : Nat) : Except String FatData :=
  if num_sectors ≤ fat_sector then .error ("not a fat filesystem")
  else
    let first_fat0 := readLE disk (fat_sector * 512) 4
    let first_fat :=
      if fat_size = 32 then first_fat0 % 0x10000000
      else if fat_size = 16 then first_fat0 % 0x10000
      else first_fat0 % 0x1000
    let magic :=
      if fat_size = 32 then 0x0fffff00
      else if fat_size = 16 then 0xff00
      else 0x0f00
    if first_fat ≠ (magic ||| bpb.media) then .error ("not a fat filesystem")
    else
      .ok
        { logical_sector_bits := logical_sector_bits
          num_sectors := num_sectors
          fat_sector := fat_sector
          sectors_per_fat := sectors_per_fat
          fat_size := fat_size
          root_cluster := root_cluster
          root_sector := root_sector
          num_root_sectors := num_root_sectors
          cluster_bits := cluster_bits
          cluster_eof_mark := cluster_eof_mark
          cluster_sector := cluster_sector
          num_clusters := num_clusters
          attr := 0x10
          file_size := 0
          file_cluster := root_cluster
          cur_cluster_num := 4294967295
          cur_cluster := 0 }

/-- The variant-discrimination stretch of `grub_fat_mount` (from the
`num_clusters <= 2` check to the variant branches): FAT32 when
`sectors_per_fat_16` is zero (honouring the active-FAT flag, with the
16-bit `fat_sector` update), else FAT12/FAT16 split by cluster count. -/
def grub_fat_mount_variant (disk : Disk) (bpb : Bpb)
    (logical_sector_bits num_sectors fat_sector sectors_per_fat
     root_sector num_root_sectors cluster_bits cluster_sector num_clusters : Nat) :
    Except String FatData :=
  if num_clusters ≤ 2 then .error ("not a fat filesystem")
  else if bpb.sectors_per_fat_16 = 0 then
    -- FAT32
    let flags := bpb.extended_flags
    if flags &&& 0x80 ≠ 0 ∧ bpb.num_fats < flags &&& 0xf then
      .error ("not a fat filesystem")
    else
      let fat_sector :=
        if flags &&& 0x80 ≠ 0 then
          (fat_sector + (flags &&& 0xf) * sectors_per_fat) % 65536
        else fat_sector
      if bpb.num_root_entries ≠ 0 ∨ bpb.fs_version ≠ 0 then
        .error ("not a fat filesystem")
      else
        grub_fat_mount_tail disk bpb logical_sector_bits num_sectors
          fat_sector sectors_per_fat root_sector num_root_sectors
          cluster_bits cluster_sector num_clusters
          32 0x0ffffff8 bpb.root_cluster
  else if num_clusters ≤ 4085 + 2 then
    -- FAT12
    grub_fat_mount_tail disk bpb logical_sector_bits num_sectors
      fat_sector sectors_per_fat root_sector num_root_sectors
      cluster_bits cluster_sector num_clusters
      12 0x0ff8 4294967295
  else
    -- FAT16
    grub_fat_mount_tail disk bpb logical_sector_bits num_sectors
      fat_sector sectors_per_fat root_sector num_root_sectors
      cluster_bits cluster_sector num_clusters
      16 0xfff8 4294967295

/-- `grub_fat_mount`: read and validate the BPB, derive the geometry,
discriminate the FAT variant, and probe the first FAT entry.  Fixed-width
truncations of the C arithmetic (`fat_sector` is `grub_uint16_t`, the
rest `grub_uint32_t`) are written as explicit `%`. -/
def grub_fat_mount (disk : Disk) : Except String FatData :=
  let bpb := bpbOfDisk disk
  let ls0 : Int := fat_log2 bpb.bytes_per_sector
  if ls0 < 9 then .error ("not a fat filesystem")
  else
    let logical_sector_bits := (ls0 - 9).toNat
    let cb0 : Int := fat_log2 bpb.sectors_per_cluster
    if cb0 < 0 then .error ("not a fat filesystem")
    else
      let cluster_bits := cb0.toNat + logical_sector_bits
      let fat_sector := (bpb.num_reserved_sectors <<< logical_sector_bits) % 65536
      if fat_sector = 0 then .error ("not a fat filesystem")
      else
        let sectors_per_fat :=
          ((if bpb.sectors_per_fat_16 ≠ 0 then bpb.sectors_per_fat_16
            else bpb.sectors_per_fat_32) <<< logical_sector_bits) % 4294967296
        if sectors_per_fat = 0 then .error ("not a fat filesystem")
        else
          let num_sectors :=
            ((if bpb.num_total_sectors_16 ≠ 0 then bpb.num_total_sectors_16
              else bpb.num_total_sectors_32) <<< logical_sector_bits) % 4294967296
          if num_sectors = 0 then .error ("not a fat filesystem")
          else if bpb.num_fats = 0 then .error ("not a fat filesystem")
          else
            let root_sector := (fat_sector + bpb.num_fats * sectors_per_fat) % 4294967296
            let num_root_sectors :=
              (((bpb.num_root_entries * 32 + bpb.bytes_per_sector - 1)
                 >>> (logical_sector_bits + 9)) <<< logical_sector_bits) % 4294967296
            let cluster_sector := (root_sector + num_root_sectors) % 4294967296
            let num_clusters :=
              (((num_sectors + 4294967296 - cluster_sector) % 4294967296)
                 >>> (cluster_bits + logical_sector_bits) + 2) % 4294967296
            grub_fat_mount_variant disk bpb logical_sector_bits num_sectors
              fat_sector sectors_per_fat root_sector num_root_sectors
              cluster_bits cluster_sector num_clusters

/-! ## The FAT walker and the positional reader (`grub_fat_read_data`) -/

/-- One FAT fetch of `grub_fat_read_data`'s inner loop: the variant
dependent `fat_offset`, the `(fat_size + 7) >> 3`-byte little-endian disk
read at `(fat_sector, fat_offset)`, and the variant-dependent masking /
shifting.  `fat_offset` is computed in 32-bit arithmetic in the source
(`cur_cluster` is `grub_uint32_t`), hence the `% 2^32`. -/
def fatFetch (disk : Disk) (d : FatData) (c : Nat) : Nat :=
  let fat_offset :=
    (if d.fat_size = 32 then c <<< 2
     else if d.fat_size = 16 then c <<< 1
     else c + c / 2) % 4294967296
  let v := readLE disk (d.fat_sector * 512 + fat_offset) ((d.fat_size + 7) >>> 3)
  if d.fat_size = 16 then v % 0x10000
  else if d.fat_size = 12 then (if c % 2 = 1 then v >>> 4 else v) % 0x1000
  else v

/-- Result of the chain-advancing inner `while` loop: either the walk
reached the target logical cluster (`ok`), or a fetched FAT value was at
or above `cluster_eof_mark` (`eof`, with the cursor position already
committed by the loop), or a fetched value was `< 2` or
`≥ num_clusters` (`bad`, carrying the offending value). -/
inductive WalkRes where
  | ok (c n : Nat)
  | eof (c n : Nat)
  | bad (v c n : Nat)
deriving DecidableEq

/-- The body of the inner `while (logical_cluster > cur_cluster_num)`
loop of `grub_fat_read_data`, with the remaining iteration count
(`target - n`, which strictly decreases in the source loop) as
structural fuel. -/
def walkChainGo (disk : Disk) (d : FatData) : Nat → Nat → Nat → WalkRes
  | 0, c, n => .ok c n
  | fuel + 1, c, n =>
    let nc := fatFetch disk d c
    if d.cluster_eof_mark ≤ nc then .eof c n
    else if nc < 2 ∨ d.num_clusters ≤ nc then .bad nc c n
    else walkChainGo disk d fuel nc (n + 1)

/-- The inner `while (logical_cluster > cur_cluster_num)` loop of
`grub_fat_read_data`, advancing the cursor `(c, n)` (physical cluster,
logical index) to the target logical cluster. -/
def walkChain (disk : Disk) (d : FatData) (c n target : Nat) : WalkRes :=
  walkChainGo disk d (target - n) c n

/-- The only error `grub_fat_read_data` raises itself (device errors are
not modelled on the cluster path; `device` stands for the failing
`grub_disk_read` of the root-area path when the residual size is
negative). -/
inductive RdErr where
  | invalidCluster (v : Nat)
  | device
deriving DecidableEq

/-- Result of the outer `while (len)` loop: delivered bytes, the list of
physical clusters used for data reads (in order), and the final cursor. -/
structure LoopOut where
  bytes : List Nat
  trace : List Nat
  curc : Nat
  curn : Nat
deriving DecidableEq

/-- Byte address factor: a data read of cluster `c` hits the device
sector `cluster_sector + ((c - 2) << (cluster_bits +
logical_sector_bits))`, all in 32-bit arithmetic. -/
def dataSector (d : FatData) (c : Nat) : Nat :=
  (d.cluster_sector +
    ((c + 4294967296 - 2) % 4294967296 <<< (d.cluster_bits + d.logical_sector_bits)))
    % 4294967296

/-- The body of the outer `while (len)` loop of `grub_fat_read_data`,
with structural fuel.  Each iteration delivers at least one byte
(`off` stays below the cluster byte size: the source masks it before
the loop and zeroes it afterwards), so `len` decreases strictly and
fuel `len` suffices. -/
def readLoopGo (disk : Disk) (d : FatData) :
    Nat → Nat → Nat → Nat → Nat → Nat → Except RdErr LoopOut
  | 0, c, n, _, _, _ => .ok ⟨[], [], c, n⟩
  | fuel + 1, c, n, target, off, len =>
    if len = 0 then .ok ⟨[], [], c, n⟩
    else
      match walkChain disk d c n target with
      | .bad v _ _ => .error (.invalidCluster v)
      | .eof c' n' => .ok ⟨[], [], c', n'⟩
      | .ok c' n' =>
        let B := d.cluster_bits + d.logical_sector_bits + 9
        let size := min ((1 <<< B) - off) len
        match readLoopGo disk d fuel c' n' (target + 1) 0 (len - size) with
        | .error e => .error e
        | .ok o =>
          .ok ⟨readBytes disk (dataSector d c' * 512 + off) size ++ o.bytes,
               c' :: o.trace, o.curc, o.curn⟩

/-- The outer `while (len)` loop of `grub_fat_read_data`. -/
def readLoop (disk : Disk) (d : FatData) (c n target off len : Nat) :
    Except RdErr LoopOut :=
  readLoopGo disk d len c n target off len

/-- Result of `grub_fat_read_data`: `-1` with an error, or the byte
count (here: the bytes themselves plus the data-cluster trace) and the
updated handle. -/
inductive RdOut where
  | err (e : RdErr)
  | ok (bytes : List Nat) (trace : List Nat) (d' : FatData)
deriving DecidableEq

/-- `grub_fat_read_data (disk, data, read_hook, offset, len, buf)`.
The FAT12/16 root-directory special case (`file_cluster == ~0UL`, i.e.
all bits of the 32-bit field set) clamps against the fixed root area;
a negative residual size is a failing device read.  Otherwise the offset
is split into logical cluster and intra-cluster remainder, the cursor is
cold-restarted when it is past the target (or invalid), and the outer
loop runs. -/
def grub_fat_read_data (disk : Disk) (d : FatData) (offset len : Nat) : RdOut :=
  if d.file_cluster = 4294967295 then
    let size : Int := ((d.num_root_sectors <<< 9 : Nat) : Int) - (offset : Int)
    let size := if (len : Int) < size then (len : Int) else size
    if size < 0 then .err .device
    else .ok (readBytes disk (d.root_sector * 512 + offset) size.toNat) [] d
  else
    let B := d.cluster_bits + d.logical_sector_bits + 9
    let logical := offset >>> B
    let off := offset % (1 <<< B)
    let c0 := if logical < d.cur_cluster_num then d.file_cluster else d.cur_cluster
    let n0 := if logical < d.cur_cluster_num then 0 else d.cur_cluster_num
    match readLoop disk d c0 n0 logical off len with
    | .error e => .err e
    | .ok o => .ok o.bytes o.trace { d with cur_cluster := o.curc, cur_cluster_num := o.curn }

/-- Bytes of a read, or `none` on error (the `-1` return). -/
def rdBytes : RdOut → Option (List Nat)
  | .err _ => none
  | .ok bs _ _ => some bs

/-- Data-cluster trace of a read, or `none` on error. -/
def rdTrace : RdOut → Option (List Nat)
  | .err _ => none
  | .ok _ tr _ => some tr

/-- The physical cluster the first data read of
`grub_fat_read_data disk d offset len` uses before any FAT fetch: the
cold-restart start `file_cluster` if the cursor is past the target or
invalid, the memoized `cur_cluster` otherwise. -/
def startCluster (d : FatData) (offset : Nat) : Nat :=
  if offset >>> (d.cluster_bits + d.logical_sector_bits + 9) < d.cur_cluster_num
  then d.file_cluster else d.cur_cluster

/-- The tail of `grub_fat_find_dir` (lines 612–616): adopt a 32-byte
directory record as the current file — `attr`, `file_size`,
`file_cluster = (first_cluster_high << 16) | first_cluster_low`, cursor
invalidated.  The record is its raw 32 bytes. -/
def applyEntry (d : FatData) (e : List Nat) : FatData :=
  { d with
    attr := e.getD 11 0
    file_size := readLE (fun i => e.getD i 0) 28 4
    file_cluster := (readLE (fun i => e.getD i 0) 20 2 <<< 16) ||| readLE (fun i => e.getD i 0) 26 2
    cur_cluster_num := 4294967295 }

/-! ## The directory scanner of `grub_fat_find_dir` -/

/-- Modelled from the spec: `grub_tolower` is an external string helper
("case folding"); ASCII uppercase maps to lowercase. -/
def grub_tolower (c : Nat) : Nat := if 65 ≤ c ∧ c ≤ 90 then c + 32 else c

/-- Modelled from the spec: `grub_isspace` is an external string helper
("whitespace tests"); blank, tab, newline, carriage return. -/
def grub_isspace (c : Nat) : Bool := c = 32 || c = 9 || c = 10 || c = 13

/-- Byte `i` of a raw 32-byte directory record (`dir.name[i]` for
`i < 11`). -/
def entName (e : List Nat) (i : Nat) : Nat := e.getD i 0

/-- The `attr` byte of a raw 32-byte directory record (offset 11). -/
def entAttr (e : List Nat) : Nat := e.getD 11 0

/-- `struct grub_fat_long_name_entry` view of a record: the `id` byte. -/
def lfnId (e : List Nat) : Nat := e.getD 0 0

/-- LFN view: the `checksum` byte (offset 13). -/
def lfnChecksum (e : List Nat) : Nat := e.getD 13 0

/-- LFN view: the 13 UTF-16 LE code units, in layout order
(`name1[5]` at bytes 1–10, `name2[6]` at 14–25, `name3[2]` at 28–31). -/
def lfnUnits (e : List Nat) : List Nat :=
  [1, 3, 5, 7, 9, 14, 16, 18, 20, 22, 24, 28, 30].map
    (fun k => e.getD k 0 + 256 * e.getD (k + 1) 0)

/-- The LFN-assembly state of the scan loop: `slot`, `slots`, `checksum`
(all C `int`, `-1` meaning none/invalid) and the `unibuf` staging buffer
of UTF-16 code units (its initial content is `malloc` garbage, so it is
carried as an arbitrary function). -/
structure ScanState where
  slot : Int
  slots : Int
  checksum : Int
  unibuf : Nat → Nat

/-- `memcpy` of 13 code units into `unibuf` at unit index `base`. -/
def writeUnits (f : Nat → Nat) (base : Nat) (us : List Nat) : Nat → Nat :=
  fun i => if base ≤ i ∧ i < base + us.length then us.getD (i - base) 0 else f i

/-- The 8.3 checksum fold of lines 546–547:
`sum = ((sum >> 1) | (sum << 7)) + byte` in `grub_uint8_t`. -/
def sum8dot3 (name : List Nat) : Nat :=
  name.foldl (fun s b => (s / 2 + s % 2 * 128 + b) % 256) 0

/-- The filename a scanned 8.3 record yields: either the decoded LFN
buffer (as UTF-16 code units, before the external UTF-8 transcoding) or
the converted 8.3 short name (as bytes). -/
inductive Produced where
  | longName (units : List Nat)
  | shortName (cs : List Nat)
deriving DecidableEq

/-- The completed LFN buffer attached to an entry: `slots * 13` code
units of `unibuf`. -/
def lfnBuffer (st : ScanState) : List Nat :=
  (List.range (st.slots.toNat * 13)).map st.unibuf

/-- The 8.3 conversion of lines 579–593, written as the exact effect of
the pointer-walking buffer code: the base is bytes 0–7 up to the first
NUL or whitespace byte, lowercased; the extension likewise from bytes
8–10; the final `if (*filep != '.') filep++;` keeps the joining dot
exactly when the extension is non-empty, except that an extension whose
last kept byte is itself `'.'` loses that byte to the terminator. -/
def convert8dot3 (name : List Nat) : List Nat :=
  let keep : Nat → Bool := fun b => b != 0 && ! grub_isspace b
  let base := ((name.take 8).takeWhile keep).map grub_tolower
  let ext := (((name.drop 8).take 3).takeWhile keep).map grub_tolower
  if ext = [] then base
  else if ext.getLast? = some 46 then base ++ 46 :: ext.dropLast
  else base ++ 46 :: ext

/-- The name rewriting of lines 538–540: a leading 0x05 byte (Japanese
compatibility escape) is replaced by 0xE5 before the 11-byte name is
used; the result is the 11-byte name field. -/
def rewriteName (e : List Nat) : List Nat :=
  if entName e 0 = 0x05 then 0xe5 :: (e.drop 1).take 10 else e.take 11

/-- One iteration of the scan loop of `grub_fat_find_dir`
(lines 507–607) on a raw 32-byte record, in directory-listing mode
(`*dirname == '\0' && call_hook`, the mode that yields every name):
LFN records feed the assembler; deleted or invalid-attribute records are
skipped; otherwise the record is an 8.3 entry and yields its long name
when the group is complete and the checksum matches, its converted short
name otherwise.  (End-of-directory, `name[0] == 0`, is handled by the
enclosing loop before this step.) -/
def find_dir_step (st : ScanState) (e : List Nat) : ScanState × Option Produced :=
  if entAttr e = 0x0f then
    let id0 := lfnId e
    let st1 : ScanState :=
      if id0 &&& 0x40 ≠ 0 then
        { st with slots := ((id0 &&& 0x3f : Nat) : Int),
                  slot := ((id0 &&& 0x3f : Nat) : Int),
                  checksum := (lfnChecksum e : Int) }
      else st
    let id : Int := if id0 &&& 0x40 ≠ 0 then ((id0 &&& 0x3f : Nat) : Int) else (id0 : Int)
    if id ≠ st1.slot ∨ st1.slot = 0 ∨ st1.checksum ≠ (lfnChecksum e : Int) then
      ({ st1 with checksum := -1 }, none)
    else
      ({ st1 with slot := st1.slot - 1,
                  unibuf := writeUnits st1.unibuf ((st1.slot - 1).toNat * 13) (lfnUnits e) },
       none)
  else if entName e 0 = 0xe5 ∨ entAttr e &&& 0xc8 ≠ 0 then
    (st, none)
  else
    let nm := rewriteName e
    if st.checksum ≠ -1 ∧ st.slot = 0 then
      if (sum8dot3 nm : Int) = st.checksum then
        ({ st with checksum := -1 }, some (.longName (lfnBuffer st)))
      else
        ({ st with checksum := -1 }, some (.shortName (convert8dot3 nm)))
    else
      (st, some (.shortName (convert8dot3 nm)))

/-! ## `grub_fat_label` -/

/-- Result of the label operation: a label was found, end-of-directory
was reached with none (`*label = 0`, no error), or the operation failed
with an error. -/
inductive LabelRes where
  | found (nm : List Nat)
  | noLabel
  | failed
deriving DecidableEq

/-- Modelled from the spec: `grub_strndup (dir.name, 11)` is an external
string helper; per the spec ("return the 11-byte name") the label is the
11-byte name field of the record. -/
def labelName (e : List Nat) : List Nat := e.take 11

/-- The scan loop of `grub_fat_label`: read 32-byte records at offsets
0, 32, 64, … through `grub_fat_read_data` (threading the handle), stop
with an error on a failed read, with no label on a short read or a
record starting with 0, and with the name of the first record whose
`attr` equals `GRUB_FAT_ATTR_VOLUME_ID` (8) exactly.  `fuel` bounds the
iteration count (the C loop is unbounded); `none` means fuel ran out. -/
def grub_fat_label_loop (disk : Disk) (d : FatData) (offset : Nat) :
    Nat → Option LabelRes
  | 0 => none
  | fuel + 1 =>
    match grub_fat_read_data disk d offset 32 with
    | .err _ => some .failed
    | .ok bs _ d' =>
      if bs.length ≠ 32 ∨ bs.getD 0 0 = 0 then some .noLabel
      else if bs.getD 11 0 = 8 then some (.found (labelName bs))
      else grub_fat_label_loop disk d' (offset + 32) fuel

/-- `grub_fat_label`: mount, check the directory attribute, scan. -/
def grub_fat_label (disk : Disk) (fuel : Nat) : Option LabelRes :=
  match grub_fat_mount disk with
  | .error _ => some .failed
  | .ok d =>
    if d.attr &&& 0x10 = 0 then some .failed
    else grub_fat_label_loop disk d 0 fuel

/-! ## Pure view of a cluster chain, for the cursor-independence proofs -/

/-- The cursor `(c, n)` is a faithful memo of the chain: walking the
chain from `file_cluster` to logical index `n` lands exactly on `c`. -/
def validCursor (disk : Disk) (d : FatData) (c n : Nat) : Prop :=
  walkChain disk d d.file_cluster 0 n = .ok c n

instance (disk : Disk) (d : FatData) (c n : Nat) :
    Decidable (validCursor disk d c n) :=
  inferInstanceAs (Decidable (walkChain disk d d.file_cluster 0 n = .ok c n))

/-- States reachable by reads: the cursor is either invalid (the
`~0UL` sentinel) or a faithful memo of the chain. -/
def goodCur (disk : Disk) (d : FatData) : Prop :=
  d.cur_cluster_num = 4294967295 ∨ validCursor disk d d.cur_cluster d.cur_cluster_num

instance (disk : Disk) (d : FatData) : Decidable (goodCur disk d) :=
  inferInstanceAs (Decidable (_ ∨ _))

/-- Replace only the cursor fields of a handle. -/
def setCursor (d : FatData) (c n : Nat) : FatData :=
  { d with cur_cluster := c, cur_cluster_num := n }

/-- A handle with its cursor invalidated (as after `mount` or a
directory hop). -/
def fresh (d : FatData) : FatData := setCursor d d.file_cluster 4294967295

/-- The byte of the open file at absolute position `p`, determined by a
cold walk of the chain; `none` past end-of-chain or on a corrupt
chain. -/
def byteAt (disk : Disk) (d : FatData) (p : Nat) : Option Nat :=
  let B := d.cluster_bits + d.logical_sector_bits + 9
  match walkChain disk d d.file_cluster 0 (p >>> B) with
  | .ok c _ => some (disk (dataSector d c * 512 + p % (1 <<< B)))
  | _ => none

/-- The maximal delivered byte sequence from position `start`, of length
at most `len`, truncated at the first undefined position. -/
def byteSeq (disk : Disk) (d : FatData) (start : Nat) : Nat → List Nat
  | 0 => []
  | len + 1 =>
    match byteAt disk d start with
    | none => []
    | some b => b :: byteSeq disk d (start + 1) len

/-- Run a list of `(offset, len)` reads in order against one handle,
threading the handle state, concatenating the delivered bytes; `none`
if any read fails. -/
def readsOk (disk : Disk) : FatData → List (Nat × Nat) → Option (List Nat × FatData)
  | d, [] => some ([], d)
  | d, (off, len) :: rest =>
    match grub_fat_read_data disk d off len with
    | .err _ => none
    | .ok bs _ d' =>
      match readsOk disk d' rest with
      | none => none
      | some (acc, d'') => some (bs ++ acc, d'')

/-- The `(offset, length)` pairs of a partition given by consecutive
sizes, starting at `s`. -/
def partPairs (s : Nat) : List Nat → List (Nat × Nat)
  | [] => []
  | l :: ls => (s, l) :: partPairs (s + l) ls

/-- The cursor-independent view of a read result: the error, or the
delivered bytes and data-cluster trace, with the updated handle
dropped. -/
def rdView : RdOut → Except RdErr (List Nat × List Nat)
  | .err e => .error e
  | .ok bs tr _ => .ok (bs, tr)

/-- No cold walk of the chain from `file_cluster` to logical index `t`
hits a corrupt FAT value. -/
def chainSafe (disk : Disk) (d : FatData) (t : Nat) : Prop :=
  ∀ v c n, walkChain disk d d.file_cluster 0 t ≠ .bad v c n

/-- The handle states `grub_fat_read_data` can run from, relative to a
base handle `d`: on the fixed-root path (`file_cluster = ~0UL`) the
handle is never changed by a read; on the cluster path it is `d` with
some cursor, and the cursor is good. -/
def stateOk (disk : Disk) (d dz : FatData) : Prop :=
  (d.file_cluster = 4294967295 ∧ dz = d) ∨
  (d.file_cluster ≠ 4294967295 ∧ goodCur disk dz ∧ ∃ x y, dz = setCursor d x y)

/-! ## Authoritative bit-level FAT12 decode (for C7) -/

/-- Bit `i` of the little-endian byte stream `f`. -/
def fatBit (f : Nat → Nat) (i : Nat) : Nat := (f (i / 8) >>> (i % 8)) % 2

/-- The authoritative decode of entry `c` of a packed 1.5-byte-per-entry
FAT12 table: the 12 bits starting at bit `12 * c` of the byte stream,
least significant first. -/
def fat12entry (f : Nat → Nat) (c : Nat) : Nat :=
  ((List.range 12).map (fun k => fatBit f (12 * c + k) <<< k)).sum

/-- The FAT region of the device, as the byte stream the walker reads. -/
def fatRegion (disk : Disk) (d : FatData) : Nat → Nat :=
  fun i => disk (d.fat_sector * 512 + i)

/-! ## Concrete volumes -/

/-- Two little-endian bytes. -/
def le16 (v : Nat) : List Nat := [v % 256, v / 256 % 256]

/-- Four little-endian bytes. -/
def le32 (v : Nat) : List Nat :=
  [v % 256, v / 256 % 256, v / 65536 % 256, v / 16777216 % 256]

/-- A 32-byte directory record with the given name bytes, attribute,
first-cluster halves and file size (timestamps zeroed). -/
def mkEntry (name : List Nat) (attr hi lo size : Nat) : List Nat :=
  name ++ [attr] ++ List.replicate 8 0 ++ le16 hi ++ le16 0 ++ le16 0 ++ le16 lo ++ le32 size

/-- Boot sector of volume 1: FAT12, 512-byte sectors, 1 sector per
cluster, 1 reserved sector, 1 FAT of 1 sector, 16 root entries
(1 sector), 20 total sectors, media 0xF8. -/
def bpb1 : List Nat :=
  [0xeb, 0x3c, 0x90] ++ List.replicate 8 0x20 ++
  le16 512 ++ [1] ++ le16 1 ++ [1] ++ le16 16 ++ le16 20 ++ [0xf8] ++ le16 1 ++
  le16 0 ++ le16 0 ++ le32 0 ++ le32 0 ++
  le32 0 ++ le16 0 ++ le16 0 ++ le32 0 ++ le16 0 ++ le16 0

/-- FAT of volume 1: FAT ID `0xFF8` for media 0xF8, cluster 2 chains to
cluster 3, cluster 3 is end-of-chain (0xFFF). -/
def fatV1 : List Nat := [0xf8, 0xff, 0xff, 0x03, 0xf0, 0xff]

/-- Root directory of volume 1: a deleted volume-label record, a live
volume-label record, file `A` (10 bytes, clusters 2→3), and the empty
file `B` whose directory record carries first cluster 0. -/
def rootV1 : List Nat :=
  mkEntry ([0xe5, 0x4f, 0x4c, 0x44, 0x4c, 0x41, 0x42, 0x45, 0x4c, 0x20, 0x20]) 0x08 0 0 0 ++
  mkEntry ([0x4e, 0x45, 0x57, 0x4c, 0x41, 0x42, 0x45, 0x4c, 0x20, 0x20, 0x20]) 0x08 0 0 0 ++
  mkEntry ([0x41] ++ List.replicate 10 0x20) 0x20 0 2 10 ++
  mkEntry ([0x42] ++ List.replicate 10 0x20) 0x20 0 0 0

/-- Volume 1 as a device: BPB at sector 0, FAT at sector 1, root
directory at sector 2, cluster 2 (file `A`'s data, "0123456789") at
sector 3, everything else zero. -/
def disk1 : Disk := fun a =>
  if a < 512 then bpb1.getD a 0
  else if a < 1024 then fatV1.getD (a - 512) 0
  else if a < 1536 then rootV1.getD (a - 1024) 0
  else if a < 2048 then [48, 49, 50, 51, 52, 53, 54, 55, 56, 57].getD (a - 1536) 0
  else 0

/-- Boot sector of volume 2: FAT32 (`sectors_per_fat_16 = 0`), 512-byte
sectors, 1 sector per cluster, 1 reserved sector, 1 FAT of 1 sector,
0 root entries, 100 total sectors, media 0xF8, root cluster 2 — a valid
FAT32 volume with only 100 clusters. -/
def bpb2 : List Nat :=
  [0xeb, 0x3c, 0x90] ++ List.replicate 8 0x20 ++
  le16 512 ++ [1] ++ le16 1 ++ [1] ++ le16 0 ++ le16 0 ++ [0xf8] ++ le16 0 ++
  le16 0 ++ le16 0 ++ le32 0 ++ le32 100 ++
  le32 1 ++ le16 0 ++ le16 0 ++ le32 2 ++ le16 0 ++ le16 0

/-- Volume 2 as a device: the FAT32 FAT ID `0x0FFFFFF8` at sector 1. -/
def disk2 : Disk := fun a =>
  if a < 512 then bpb2.getD a 0
  else if a < 1024 then [0xf8, 0xff, 0xff, 0x0f].getD (a - 512) 0
  else 0

/-- The mounted handle, or a zeroed dummy on mount failure (used only to
state closed counterexamples; the accompanying conjunct that the mount
succeeded rules the dummy out). -/
def mountOr (disk : Disk) : FatData :=
  match grub_fat_mount disk with
  | .ok d => d
  | .error _ => ⟨0, 0, 0, 0, 0, 0, 0, 0, 0, 0, 0, 0, 0, 0, 0, 0, 0⟩

/-- File `A` of volume 1 as opened by the driver: the mounted handle
updated by the `grub_fat_find_dir` tail from `A`'s directory record
(attribute 0x20, so `grub_fat_open` accepts it). -/
def dA : FatData := applyEntry (mountOr disk1) ((rootV1.drop 64).take 32)

/-- The empty file `B` of volume 1 as opened by the driver: its
directory record stores first cluster 0 (the usual encoding of an empty
file). -/
def dB : FatData := applyEntry (mountOr disk1) ((rootV1.drop 96).take 32)

/-- File `B`'s handle redirected to first cluster 5: cluster 5's FAT
entry on volume 1 is 0 (free), so the first chain step fetches the
invalid value 0. -/
def dC : FatData := { dB with file_cluster := 5 }

/-- An empty LFN-assembly state (`slot = slots = checksum = -1`,
`unibuf` garbage), as at the top of `grub_fat_find_dir`'s loop. -/
def stInit : ScanState := { slot := -1, slots := -1, checksum := -1, unibuf := fun _ => 0 }

/-- An 8.3 record `HELLO   TXT` with the archive attribute. -/
def entHello : List Nat :=
  mkEntry ([72, 69, 76, 76, 79, 32, 32, 32, 84, 88, 84]) 0x20 0 0 0

/-- A scan state in which a one-slot LFN group has just completed with
the checksum of `entHello`'s name. -/
def stLong : ScanState :=
  { slot := 0, slots := 1,
    checksum := (sum8dot3 (rewriteName entHello) : Int),
    unibuf := fun _ => 65 }

/-- A deleted LFN slot: first byte (the `id`) 0xE5, attribute 0x0F,
checksum byte 7. -/
def entLfnDel : List Nat :=
  [0xe5] ++ List.replicate 10 0 ++ [0x0f, 0, 7] ++ List.replicate 18 0

/-- An 8.3 record whose base name contains an interior space:
`AB CDEFG` with extension `TXT`. -/
def entSpace : List Nat :=
  mkEntry ([65, 66, 32, 67, 68, 69, 70, 71, 84, 88, 84]) 0x20 0 0 0

/-- A deleted 8.3 record (first name byte 0xE5, archive attribute). -/
def entDel : List Nat :=
  mkEntry ([0xe5, 66, 67, 32, 32, 32, 32, 32, 84, 88, 84]) 0x20 0 0 0

/-! ## Theorems: `fat_log2` and mount inversion -/

theorem fat_log2_aux_spec (fuel : Nat) : ∀ x i,
    i ≤ (fat_log2_aux fuel x i).2 ∧
    x = (fat_log2_aux fuel x i).1 * 2 ^ ((fat_log2_aux fuel x i).2 - i) := by
  induction fuel with
  | zero => intro x i; simp [fat_log2_aux]
  | succ fuel ih =>
    intro x i
    rw [fat_log2_aux]
    split
    · rename_i h
      obtain ⟨h1, h2⟩ := ih (x / 2) (i + 1)
      refine ⟨by omega, ?_⟩
      have he : (fat_log2_aux fuel (x / 2) (i + 1)).2 - i =
          (fat_log2_aux fuel (x / 2) (i + 1)).2 - (i + 1) + 1 := by omega
      rw [he, pow_succ, ← mul_assoc, ← h2]
      omega
    · simp

theorem fat_log2_pow {x : Nat} (h : 0 ≤ fat_log2 x) : x = 2 ^ (fat_log2 x).toNat := by
  by_cases hx : x = 0
  · subst hx; simp [fat_log2] at h
  · by_cases h1 : (fat_log2_aux x x 0).1 = 1
    · have he : fat_log2 x = ((fat_log2_aux x x 0).2 : Int) := by
        simp [fat_log2, hx, h1]
      obtain ⟨-, h2⟩ := fat_log2_aux_spec x x 0
      rw [he]
      simpa [h1] using h2
    · have he : fat_log2 x = -1 := by simp [fat_log2, hx, h1]
      rw [he] at h
      omega

theorem grub_fat_mount_tail_ok {disk : Disk} {bpb : Bpb}
    {lsb ns fsec spf rs nrs cb cs nc fsz eof rc : Nat} {d : FatData}
    (h : grub_fat_mount_tail disk bpb lsb ns fsec spf rs nrs cb cs nc fsz eof rc = .ok d) :
    d = { logical_sector_bits := lsb, num_sectors := ns, fat_sector := fsec,
          sectors_per_fat := spf, fat_size := fsz, root_cluster := rc,
          root_sector := rs, num_root_sectors := nrs, cluster_bits := cb,
          cluster_eof_mark := eof, cluster_sector := cs, num_clusters := nc,
          attr := 0x10, file_size := 0, file_cluster := rc,
          cur_cluster_num := 4294967295, cur_cluster := 0 } := by
  simp only [grub_fat_mount_tail] at h
  split_ifs at h
  all_goals first
    | exact (Except.ok.inj h).symm
    | simp at h

/-- Inversion of the variant stage. -/
theorem grub_fat_mount_variant_ok {disk : Disk} {bpb : Bpb}
    {lsb ns fsec spf rs nrs cb cs nc : Nat} {d : FatData}
    (h : grub_fat_mount_variant disk bpb lsb ns fsec spf rs nrs cb cs nc = .ok d) :
    2 < nc ∧ d.sectors_per_fat = spf ∧ d.num_clusters = nc ∧
    d.attr = 0x10 ∧ d.cur_cluster_num = 4294967295 ∧
    (if bpb.sectors_per_fat_16 = 0 then
       d.fat_size = 32 ∧ d.cluster_eof_mark = 0x0ffffff8
     else if nc ≤ 4085 + 2 then
       d.fat_size = 12 ∧ d.cluster_eof_mark = 0x0ff8
     else d.fat_size = 16 ∧ d.cluster_eof_mark = 0xfff8) := by
  simp only [grub_fat_mount_variant] at h
  split_ifs at h
  all_goals try simp at h
  all_goals have hd := grub_fat_mount_tail_ok h
  all_goals subst hd
  all_goals simp_all
  all_goals omega

set_option maxHeartbeats 2000000 in
/-- Everything a successful mount guarantees, read off the code path. -/
theorem grub_fat_mount_ok {disk : Disk} {d : FatData}
    (h : grub_fat_mount disk = .ok d) :
    9 ≤ fat_log2 (bpbOfDisk disk).bytes_per_sector ∧
    0 ≤ fat_log2 (bpbOfDisk disk).sectors_per_cluster ∧
    (bpbOfDisk disk).num_fats ≠ 0 ∧
    d.sectors_per_fat ≠ 0 ∧ 2 < d.num_clusters ∧
    d.attr = 0x10 ∧ d.cur_cluster_num = 4294967295 ∧
    (if (bpbOfDisk disk).sectors_per_fat_16 = 0 then
       d.fat_size = 32 ∧ d.cluster_eof_mark = 0x0ffffff8
     else if d.num_clusters ≤ 4085 + 2 then
       d.fat_size = 12 ∧ d.cluster_eof_mark = 0x0ff8
     else d.fat_size = 16 ∧ d.cluster_eof_mark = 0xfff8) := by
  simp only [grub_fat_mount] at h
  split_ifs at h
  all_goals try exact Except.noConfusion h
  all_goals obtain ⟨h2, hspf, hnc, hattr, hcur, hvar⟩ := grub_fat_mount_variant_ok h
  all_goals rw [hnc]
  all_goals rw [hspf]
  all_goals exact ⟨by omega, by omega, by omega, by omega, h2, hattr, hcur, hvar⟩

set_option maxHeartbeats 2000000 in
/-- Mount produces a handle or fails with exactly the BAD_FS message. -/
theorem grub_fat_mount_shape (disk : Disk) :
    (∃ d, grub_fat_mount disk = .ok d) ∨
    grub_fat_mount disk = .error ("not a fat filesystem") := by
  cases h : grub_fat_mount disk with
  | ok d => exact .inl ⟨d, rfl⟩
  | error s =>
    right
    suffices hs : s = "not a fat filesystem" by rw [hs]
    have tail : ∀ {bpb lsb ns fsec spf rs nrs cb cs nc fsz eof rc},
        grub_fat_mount_tail disk bpb lsb ns fsec spf rs nrs cb cs nc
          fsz eof rc = .error s → s = "not a fat filesystem" := by
      intro bpb lsb ns fsec spf rs nrs cb cs nc fsz eof rc ht
      simp only [grub_fat_mount_tail] at ht
      split_ifs at ht
      all_goals first
        | exact (Except.error.inj ht).symm
        | simp at ht
    have variant : ∀ {bpb lsb ns fsec spf rs nrs cb cs nc},
        grub_fat_mount_variant disk bpb lsb ns fsec spf rs nrs cb cs nc
          = .error s → s = "not a fat filesystem" := by
      intro bpb lsb ns fsec spf rs nrs cb cs nc hv
      simp only [grub_fat_mount_variant] at hv
      split_ifs at hv
      all_goals first
        | exact (Except.error.inj hv).symm
        | exact tail hv
    simp only [grub_fat_mount] at h
    split_ifs at h
    all_goals first
      | exact (Except.error.inj h).symm
      | exact variant h

/-- C1 counterexample: volume 2 is accepted by `grub_fat_mount` with
`num_clusters = 100 ≤ 4085 + 2`, yet it is FAT32 (`fat_size = 32`,
`cluster_eof_mark = 0x0ffffff8`), not FAT12 — so the variant is not
discriminated by cluster count alone. -/
theorem c1_counterexample :
    grub_fat_mount disk2 = .ok (mountOr disk2) ∧
    (mountOr disk2).num_clusters ≤ 4085 + 2 ∧
    (mountOr disk2).fat_size = 32 ∧ (mountOr disk2).fat_size ≠ 12 ∧
    (mountOr disk2).cluster_eof_mark = 0x0ffffff8 := by decide

/-- C1 (amended): for every BPB accepted by mount, the FAT variant is
discriminated first by `sectors_per_fat_16`: if that field is zero the
volume is FAT32 (`fat_size = 32`, `cluster_eof_mark = 0x0ffffff8`);
otherwise the cluster count splits FAT12 (`num_clusters ≤ 4085 + 2`,
mark 0x0ff8) from FAT16 (mark 0xfff8). -/
theorem c1_variant_discrimination (disk : Disk) (d : FatData)
    (h : grub_fat_mount disk = .ok d) :
    if (bpbOfDisk disk).sectors_per_fat_16 = 0 then
      d.fat_size = 32 ∧ d.cluster_eof_mark = 0x0ffffff8
    else if d.num_clusters ≤ 4085 + 2 then
      d.fat_size = 12 ∧ d.cluster_eof_mark = 0x0ff8
    else d.fat_size = 16 ∧ d.cluster_eof_mark = 0xfff8 :=
  (grub_fat_mount_ok h).2.2.2.2.2.2.2

theorem c1_variant_discrimination_witness :
    if (bpbOfDisk disk1).sectors_per_fat_16 = 0 then
      (mountOr disk1).fat_size = 32 ∧ (mountOr disk1).cluster_eof_mark = 0x0ffffff8
    else if (mountOr disk1).num_clusters ≤ 4085 + 2 then
      (mountOr disk1).fat_size = 12 ∧ (mountOr disk1).cluster_eof_mark = 0x0ff8
    else (mountOr disk1).fat_size = 16 ∧ (mountOr disk1).cluster_eof_mark = 0xfff8 :=
  c1_variant_discrimination disk1 (mountOr disk1) (by decide)

/-- C5: every handle returned by a successful mount satisfies the
claimed invariants (`bytes_per_sector` a power of two ≥ 512,
`sectors_per_cluster` a power of two, `num_fats ≥ 1`,
`sectors_per_fat > 0`, `num_clusters > 2`), and mount never fails other
than with the BAD_FS error "not a fat filesystem" and no handle — so a
BPB violating one of the invariants is rejected exactly that way. -/
theorem c5_mount_invariants (disk : Disk) :
    (∀ d, grub_fat_mount disk = .ok d →
        (∃ k, 9 ≤ k ∧ (bpbOfDisk disk).bytes_per_sector = 2 ^ k) ∧
        512 ≤ (bpbOfDisk disk).bytes_per_sector ∧
        (∃ k, (bpbOfDisk disk).sectors_per_cluster = 2 ^ k) ∧
        1 ≤ (bpbOfDisk disk).num_fats ∧
        0 < d.sectors_per_fat ∧ 2 < d.num_clusters) ∧
    ((∃ d, grub_fat_mount disk = .ok d) ∨
      grub_fat_mount disk = .error ("not a fat filesystem")) := by
  refine ⟨fun d h => ?_, grub_fat_mount_shape disk⟩
  obtain ⟨h9, hsc, hnf, hspf, hnc, -⟩ := grub_fat_mount_ok h
  have hb := fat_log2_pow (x := (bpbOfDisk disk).bytes_per_sector) (by omega)
  have hc := fat_log2_pow (x := (bpbOfDisk disk).sectors_per_cluster) hsc
  refine ⟨⟨(fat_log2 (bpbOfDisk disk).bytes_per_sector).toNat, by omega, hb⟩, ?_,
    ⟨(fat_log2 (bpbOfDisk disk).sectors_per_cluster).toNat, hc⟩, by omega, by omega, hnc⟩
  calc (512 : Nat) = 2 ^ 9 := by norm_num
    _ ≤ 2 ^ (fat_log2 (bpbOfDisk disk).bytes_per_sector).toNat :=
        Nat.pow_le_pow_right (by norm_num) (by omega)
    _ = (bpbOfDisk disk).bytes_per_sector := hb.symm

theorem c5_mount_invariants_witness :
    (∃ k, 9 ≤ k ∧ (bpbOfDisk disk1).bytes_per_sector = 2 ^ k) ∧
    512 ≤ (bpbOfDisk disk1).bytes_per_sector ∧
    (∃ k, (bpbOfDisk disk1).sectors_per_cluster = 2 ^ k) ∧
    1 ≤ (bpbOfDisk disk1).num_fats ∧
    0 < (mountOr disk1).sectors_per_fat ∧ 2 < (mountOr disk1).num_clusters :=
  (c5_mount_invariants disk1).1 (mountOr disk1) (by decide)

/-! ## Theorems: the FAT12 fetch against the bit-level decode (C7) -/

theorem readLE_two (disk : Disk) (a : Nat) :
    readLE disk a 2 = disk a + 256 * disk (a + 1) := by
  simp [readLE]

theorem range_bitsum (x : Nat) : ∀ m,
    ((List.range m).map (fun k => x / 2 ^ k % 2 * 2 ^ k)).sum = x % 2 ^ m := by
  intro m
  induction m with
  | zero => simp [Nat.mod_one]
  | succ m ih =>
    rw [List.range_succ, List.map_append, List.sum_append, ih, List.map_singleton,
        List.sum_singleton, pow_succ, Nat.mod_mul]
    ring

theorem byte_chunk (f : Nat → Nat) (base q s m : Nat) (hm : s + m ≤ 8)
    (hbase : base = 8 * q + s) :
    ((List.range m).map (fun k => fatBit f (base + k) <<< k)).sum = f q / 2 ^ s % 2 ^ m := by
  have hmap : (List.range m).map (fun k => fatBit f (base + k) <<< k)
      = (List.range m).map (fun k => f q / 2 ^ s / 2 ^ k % 2 * 2 ^ k) := by
    apply List.map_congr_left
    intro k hk
    have hk' : k < m := List.mem_range.mp hk
    have hdiv : (base + k) / 8 = q := by omega
    have hmod : (base + k) % 8 = s + k := by omega
    simp only [fatBit, hdiv, hmod, Nat.shiftLeft_eq, Nat.shiftRight_eq_div_pow,
      pow_add, Nat.div_div_eq_div_mul]
  rw [hmap, range_bitsum]

theorem fat12_even_decode (f : Nat → Nat) (t : Nat) :
    fat12entry f (2 * t) = f (3 * t) % 256 + 256 * (f (3 * t + 1) % 16) := by
  unfold fat12entry
  rw [show (12 : Nat) = 8 + 4 by rfl, List.range_add, List.map_append, List.sum_append,
      List.map_map]
  have hcomp : (List.range 4).map ((fun k => fatBit f (12 * (2 * t) + k) <<< k) ∘ (8 + ·))
      = (List.range 4).map (fun j => 256 * (fatBit f (12 * (2 * t) + 8 + j) <<< j)) := by
    apply List.map_congr_left
    intro j hj
    simp only [Function.comp_apply, Nat.shiftLeft_eq]
    rw [show 12 * (2 * t) + (8 + j) = 12 * (2 * t) + 8 + j by omega, pow_add]
    ring
  rw [hcomp, List.sum_map_mul_left,
      byte_chunk f (12 * (2 * t)) (3 * t) 0 8 (by omega) (by omega),
      byte_chunk f (12 * (2 * t) + 8) (3 * t + 1) 0 4 (by omega) (by omega)]
  norm_num

theorem fat12_odd_decode (f : Nat → Nat) (t : Nat) :
    fat12entry f (2 * t + 1) = f (3 * t + 1) / 16 % 16 + 16 * (f (3 * t + 2) % 256) := by
  unfold fat12entry
  rw [show (12 : Nat) = 4 + 8 by rfl, List.range_add, List.map_append, List.sum_append,
      List.map_map]
  have hcomp : (List.range 8).map ((fun k => fatBit f (12 * (2 * t + 1) + k) <<< k) ∘ (4 + ·))
      = (List.range 8).map (fun j => 16 * (fatBit f (12 * (2 * t + 1) + 4 + j) <<< j)) := by
    apply List.map_congr_left
    intro j hj
    simp only [Function.comp_apply, Nat.shiftLeft_eq]
    rw [show 12 * (2 * t + 1) + (4 + j) = 12 * (2 * t + 1) + 4 + j by omega, pow_add]
    ring
  rw [hcomp, List.sum_map_mul_left,
      byte_chunk f (12 * (2 * t + 1)) (3 * t + 1) 4 4 (by omega) (by omega),
      byte_chunk f (12 * (2 * t + 1) + 4) (3 * t + 2) 0 8 (by omega) (by omega)]
  norm_num

/-- C7: on a FAT12 volume the walker's fetch of the FAT entry for
cluster `c` reads the two little-endian bytes at FAT byte offset
`c + c / 2`, shifts right by 4 exactly when `c` is odd, and masks to 12
bits — and for both parities the result equals the authoritative
bit-level decode of entry `c` of the packed 1.5-byte FAT12 table.
(The byte-value bounds state that the device holds bytes at the two
addresses read; `hc` keeps the 32-bit offset arithmetic exact.) -/
theorem c7_fat12_fetch (disk : Disk) (d : FatData) (c : Nat)
    (h12 : d.fat_size = 12) (hc : c + c / 2 < 4294967296)
    (h0 : disk (d.fat_sector * 512 + (c + c / 2)) < 256)
    (h1 : disk (d.fat_sector * 512 + (c + c / 2) + 1) < 256) :
    fatFetch disk d c =
      (if c % 2 = 1 then
        (disk (d.fat_sector * 512 + (c + c / 2)) +
          256 * disk (d.fat_sector * 512 + (c + c / 2) + 1)) >>> 4
      else
        disk (d.fat_sector * 512 + (c + c / 2)) +
          256 * disk (d.fat_sector * 512 + (c + c / 2) + 1)) % 4096 ∧
    fatFetch disk d c = fat12entry (fatRegion disk d) c := by
  have hfetch : fatFetch disk d c =
      (if c % 2 = 1 then
        (disk (d.fat_sector * 512 + (c + c / 2)) +
          256 * disk (d.fat_sector * 512 + (c + c / 2) + 1)) >>> 4
      else
        disk (d.fat_sector * 512 + (c + c / 2)) +
          256 * disk (d.fat_sector * 512 + (c + c / 2) + 1)) % 4096 := by
    rw [fatFetch, h12]
    norm_num
    rw [Nat.mod_eq_of_lt hc, show (19 : Nat) >>> 3 = 2 from rfl]
    simp only [readLE_two]
  refine ⟨hfetch, hfetch.trans ?_⟩
  rcases Nat.mod_two_eq_zero_or_one c with h2 | h2
  · obtain ⟨t, rfl⟩ : ∃ t, c = 2 * t := ⟨c / 2, by omega⟩
    rw [fat12_even_decode]
    simp only [fatRegion]
    rw [if_neg (show ¬(2 * t % 2 = 1) by omega),
        show 2 * t + 2 * t / 2 = 3 * t by omega,
        show d.fat_sector * 512 + 3 * t + 1 = d.fat_sector * 512 + (3 * t + 1) by omega]
    have ha := h0
    have hb := h1
    rw [show 2 * t + 2 * t / 2 = 3 * t by omega] at ha hb
    rw [show d.fat_sector * 512 + 3 * t + 1 = d.fat_sector * 512 + (3 * t + 1) by omega] at hb
    omega
  · obtain ⟨t, rfl⟩ : ∃ t, c = 2 * t + 1 := ⟨c / 2, by omega⟩
    rw [fat12_odd_decode]
    simp only [fatRegion]
    rw [if_pos (show (2 * t + 1) % 2 = 1 by omega),
        show 2 * t + 1 + (2 * t + 1) / 2 = 3 * t + 1 by omega,
        show d.fat_sector * 512 + (3 * t + 1) + 1 = d.fat_sector * 512 + (3 * t + 2) by omega,
        Nat.shiftRight_eq_div_pow]
    have ha := h0
    have hb := h1
    rw [show 2 * t + 1 + (2 * t + 1) / 2 = 3 * t + 1 by omega] at ha hb
    omega

theorem c7_fat12_fetch_witness :
    (fatFetch disk1 (mountOr disk1) 3 =
      (if 3 % 2 = 1 then
        (disk1 ((mountOr disk1).fat_sector * 512 + (3 + 3 / 2)) +
          256 * disk1 ((mountOr disk1).fat_sector * 512 + (3 + 3 / 2) + 1)) >>> 4
      else
        disk1 ((mountOr disk1).fat_sector * 512 + (3 + 3 / 2)) +
          256 * disk1 ((mountOr disk1).fat_sector * 512 + (3 + 3 / 2) + 1)) % 4096 ∧
    fatFetch disk1 (mountOr disk1) 3 = fat12entry (fatRegion disk1 (mountOr disk1)) 3) :=
  c7_fat12_fetch disk1 (mountOr disk1) 3 (by decide) (by decide) (by decide) (by decide)

/-! ## Theorems: the directory scanner (C6, C8) -/

/-- C6: the scanner attaches the assembled long name to an 8.3 record
exactly when the LFN group has completed (`slot = 0`) and the rotate-sum
of the record's (rewritten) 11 name bytes equals the remembered
checksum (the code also requires `checksum ≠ -1`, which follows from the
sum being a byte value); with an incomplete group or a checksum mismatch
the 8.3-derived name is produced instead; and an LFN slot whose id is
out of sequence or whose checksum differs from the remembered one
invalidates the group (`checksum := -1`) and yields nothing. -/
theorem c6_lfn_attach (st : ScanState) (e : List Nat)
    (hlfn : entAttr e ≠ 0x0f) (hdel : entName e 0 ≠ 0xe5)
    (hval : entAttr e &&& 0xc8 = 0) :
    (∀ nm, (find_dir_step st e).2 = some (.longName nm) ↔
        (st.slot = 0 ∧ (sum8dot3 (rewriteName e) : Int) = st.checksum ∧ nm = lfnBuffer st)) ∧
    (¬ (st.slot = 0 ∧ (sum8dot3 (rewriteName e) : Int) = st.checksum) →
        (find_dir_step st e).2 = some (.shortName (convert8dot3 (rewriteName e)))) ∧
    (∀ e', entAttr e' = 0x0f → lfnId e' &&& 0x40 = 0 →
        ((lfnId e' : Int) ≠ st.slot ∨ st.checksum ≠ (lfnChecksum e' : Int)) →
        (find_dir_step st e').1.checksum = -1 ∧ (find_dir_step st e').2 = none) := by
  have h2 : ¬ (entName e 0 = 0xe5 ∨ entAttr e &&& 0xc8 ≠ 0) := by
    push_neg
    exact ⟨hdel, hval⟩
  refine ⟨?_, ?_, ?_⟩
  · intro nm
    simp only [find_dir_step, if_neg hlfn, if_neg h2]
    split_ifs with hcs hsum
    · constructor
      · intro h
        simp only [Option.some.injEq, Produced.longName.injEq] at h
        exact ⟨hcs.2, hsum, h.symm⟩
      · rintro ⟨-, -, rfl⟩
        rfl
    · simp only [Option.some.injEq]
      constructor
      · intro h
        exact absurd h (by simp)
      · rintro ⟨-, hs, -⟩
        exact absurd hs hsum
    · constructor
      · intro h
        exact absurd h (by simp)
      · rintro ⟨h1, h2', -⟩
        exfalso
        apply hcs
        refine ⟨?_, h1⟩
        intro hcsum
        rw [hcsum] at h2'
        omega
  · intro hns
    simp only [find_dir_step, if_neg hlfn, if_neg h2]
    split_ifs with hcs hsum
    · exact absurd ⟨hcs.2, hsum⟩ hns
    · rfl
    · rfl
  · intro e' ha' hid hbad
    have hc0 : ¬ (lfnId e' &&& 0x40 ≠ 0) := by simp [hid]
    have hcond : ((lfnId e' : Int) ≠ st.slot ∨ st.slot = 0 ∨
        st.checksum ≠ (lfnChecksum e' : Int)) := by
      rcases hbad with h | h
      · exact .inl h
      · exact .inr (.inr h)
    simp only [find_dir_step, if_pos ha', if_neg hc0, if_pos hcond]
    refine ⟨?_, ?_⟩ <;> first | rfl | trivial

theorem c6_lfn_attach_witness :
    (find_dir_step stLong entHello).2 = some (.longName (lfnBuffer stLong)) :=
  ((c6_lfn_attach stLong entHello (by decide) (by decide) (by decide)).1
    (lfnBuffer stLong)).mpr ⟨rfl, rfl, rfl⟩

/-- C8 counterexample: (i) a record whose first byte is 0xE5 but whose
attribute byte is 0x0F is not skipped — it is fed to the LFN assembler,
which restarts a group and changes the scan state (the remembered
checksum becomes the record's, 7, instead of staying -1); (ii) the 8.3
name `AB CDEFG`/`TXT` is converted to `ab.txt` — the base is truncated
at the interior space — not to the merely-trailing-space-stripped
`ab cdefg.txt`. -/
theorem c8_counterexample :
    ((find_dir_step stInit entLfnDel).1.checksum = 7 ∧ stInit.checksum = -1 ∧
      entName entLfnDel 0 = 0xe5) ∧
    ((find_dir_step stInit entSpace).2 = some (.shortName [97, 98, 46, 116, 120, 116]) ∧
      (find_dir_step stInit entSpace).2 ≠
        some (.shortName [97, 98, 32, 99, 100, 101, 102, 103, 46, 116, 120, 116])) := by
  decide

/-- C8 (amended): for records the scanner does not treat as LFN slots
(`attr ≠ 0x0F`): a first name byte of 0xE5 means the record is skipped
with the scan state unchanged; a first name byte of 0x05 is rewritten
to 0xE5 before the 11-byte name is formed; and the produced 8.3 name is
bytes 0–7 as the base and 8–10 as the extension, each truncated at the
first NUL or whitespace byte (not merely stripped of trailing spaces),
lowercased, joined by '.' exactly when the extension is non-empty
(an extension whose last kept byte is itself '.' loses that byte to the
terminator). -/
theorem c8_8dot3_records (st : ScanState) (e : List Nat) (hlfn : entAttr e ≠ 0x0f) :
    (entName e 0 = 0xe5 → find_dir_step st e = (st, none)) ∧
    (entName e 0 ≠ 0xe5 → entAttr e &&& 0xc8 = 0 →
      ¬ (st.checksum ≠ -1 ∧ st.slot = 0 ∧ (sum8dot3 (rewriteName e) : Int) = st.checksum) →
      (find_dir_step st e).2 = some (.shortName (convert8dot3 (rewriteName e)))) ∧
    (entName e 0 = 0x05 → rewriteName e = 0xe5 :: (e.drop 1).take 10) ∧
    (∀ nm, convert8dot3 nm =
      (let keep : Nat → Bool := fun b => b != 0 && ! grub_isspace b
       let base := ((nm.take 8).takeWhile keep).map grub_tolower
       let ext := (((nm.drop 8).take 3).takeWhile keep).map grub_tolower
       if ext = [] then base
       else if ext.getLast? = some 46 then base ++ 46 :: ext.dropLast
       else base ++ 46 :: ext)) := by
  refine ⟨?_, ?_, ?_, fun nm => rfl⟩
  · intro hdel
    simp only [find_dir_step, if_neg hlfn, if_pos (Or.inl hdel)]
  · intro hdel hval hns
    have h2 : ¬ (entName e 0 = 0xe5 ∨ entAttr e &&& 0xc8 ≠ 0) := by
      push_neg
      exact ⟨hdel, hval⟩
    simp only [find_dir_step, if_neg hlfn, if_neg h2]
    split_ifs with hcs hsum
    · exact absurd ⟨hcs.1, hcs.2, hsum⟩ hns
    · rfl
    · rfl
  · intro h05
    simp only [rewriteName, if_pos h05]

theorem c8_8dot3_records_witness :
    find_dir_step stInit entDel = (stInit, none) :=
  (c8_8dot3_records stInit entDel (by decide)).1 (by decide)


/-! ## Theorems: the chain walker -/

theorem walkChainGo_ok_target (disk : Disk) (d : FatData) :
    ∀ fuel c n c' n', walkChainGo disk d fuel c n = .ok c' n' → n' = n + fuel := by
  intro fuel
  induction fuel with
  | zero =>
    intro c n c' n' h
    simp only [walkChainGo] at h
    cases h
    omega
  | succ fuel ih =>
    intro c n c' n' h
    simp only [walkChainGo] at h
    split at h
    · exact WalkRes.noConfusion h
    · split at h
      · exact WalkRes.noConfusion h
      · have := ih _ _ _ _ h
        omega

theorem walkChainGo_split (disk : Disk) (d : FatData) :
    ∀ k m c n, walkChainGo disk d (k + m) c n =
      (match walkChainGo disk d k c n with
       | .ok c' n' => walkChainGo disk d m c' n'
       | r => r) := by
  intro k
  induction k with
  | zero =>
    intro m c n
    simp [walkChainGo]
  | succ k ih =>
    intro m c n
    have he : k + 1 + m = (k + m) + 1 := by omega
    rw [he]
    simp only [walkChainGo]
    split
    · rfl
    · split
      · rfl
      · exact ih m _ _

theorem walkChainGo_eof_state (disk : Disk) (d : FatData) :
    ∀ fuel c n c' n', walkChainGo disk d fuel c n = .eof c' n' →
      n ≤ n' ∧ n' - n ≤ fuel ∧ walkChainGo disk d (n' - n) c n = .ok c' n' ∧
      d.cluster_eof_mark ≤ fatFetch disk d c' := by
  intro fuel
  induction fuel with
  | zero =>
    intro c n c' n' h
    simp only [walkChainGo] at h
    exact WalkRes.noConfusion h
  | succ fuel ih =>
    intro c n c' n' h
    simp only [walkChainGo] at h
    split at h
    · rename_i h1
      cases h
      exact ⟨le_refl n, by omega, by simp [walkChainGo], h1⟩
    · split at h
      · exact WalkRes.noConfusion h
      · rename_i h1 h2
        obtain ⟨ha, hb, hc, hd⟩ := ih _ _ _ _ h
        refine ⟨by omega, by omega, ?_, hd⟩
        have he : n' - n = (n' - (n + 1)) + 1 := by omega
        rw [he]
        simp only [walkChainGo]
        rw [if_neg h1, if_neg h2]
        exact hc

theorem walkChainGo_eof_mono (disk : Disk) (d : FatData) :
    ∀ fuel fuel' c n c' n', fuel ≤ fuel' →
      walkChainGo disk d fuel c n = .eof c' n' →
      walkChainGo disk d fuel' c n = .eof c' n' := by
  intro fuel
  induction fuel with
  | zero =>
    intro fuel' c n c' n' hle h
    simp only [walkChainGo] at h
    exact WalkRes.noConfusion h
  | succ fuel ih =>
    intro fuel' c n c' n' hle h
    obtain ⟨f', rfl⟩ : ∃ f', fuel' = f' + 1 := ⟨fuel' - 1, by omega⟩
    simp only [walkChainGo] at h ⊢
    split at h
    · rename_i h1
      rw [if_pos h1]
      exact h
    · split at h
      · exact WalkRes.noConfusion h
      · rename_i h1 h2
        rw [if_neg h1, if_neg h2]
        exact ih f' _ _ _ _ (by omega) h

theorem walkChainGo_bad_mono (disk : Disk) (d : FatData) :
    ∀ fuel fuel' c n v c' n', fuel ≤ fuel' →
      walkChainGo disk d fuel c n = .bad v c' n' →
      walkChainGo disk d fuel' c n = .bad v c' n' := by
  intro fuel
  induction fuel with
  | zero =>
    intro fuel' c n v c' n' hle h
    simp only [walkChainGo] at h
    exact WalkRes.noConfusion h
  | succ fuel ih =>
    intro fuel' c n v c' n' hle h
    obtain ⟨f', rfl⟩ : ∃ f', fuel' = f' + 1 := ⟨fuel' - 1, by omega⟩
    simp only [walkChainGo] at h ⊢
    split at h
    · exact WalkRes.noConfusion h
    · split at h
      · rename_i h1 h2
        rw [if_neg h1, if_pos h2]
        exact h
      · rename_i h1 h2
        rw [if_neg h1, if_neg h2]
        exact ih f' _ _ _ _ _ (by omega) h

theorem walkChainGo_ok_cluster (disk : Disk) (d : FatData) :
    ∀ fuel c n c' n', walkChainGo disk d fuel c n = .ok c' n' →
      c' = c ∨ (2 ≤ c' ∧ c' < d.num_clusters) := by
  intro fuel
  induction fuel with
  | zero =>
    intro c n c' n' h
    simp only [walkChainGo] at h
    cases h
    exact .inl rfl
  | succ fuel ih =>
    intro c n c' n' h
    simp only [walkChainGo] at h
    split at h
    · exact WalkRes.noConfusion h
    · split at h
      · exact WalkRes.noConfusion h
      · rename_i h1 h2
        rcases ih _ _ _ _ h with h3 | h3
        · subst h3
          right
          omega
        · exact .inr h3

theorem walkChainGo_bad_value (disk : Disk) (d : FatData) :
    ∀ fuel c n v c' n', walkChainGo disk d fuel c n = .bad v c' n' →
      v < d.cluster_eof_mark ∧ (v < 2 ∨ d.num_clusters ≤ v) := by
  intro fuel
  induction fuel with
  | zero =>
    intro c n v c' n' h
    simp only [walkChainGo] at h
    exact WalkRes.noConfusion h
  | succ fuel ih =>
    intro c n v c' n' h
    simp only [walkChainGo] at h
    split at h
    · exact WalkRes.noConfusion h
    · split at h
      · rename_i h1 h2
        cases h
        exact ⟨by omega, h2⟩
      · exact ih _ _ _ _ _ h

/-- The single-step unfolding of `walkChain`, in the shape of the C
loop. -/
theorem walkChain_eq (disk : Disk) (d : FatData) (c n target : Nat) :
    walkChain disk d c n target =
      if target ≤ n then .ok c n
      else
        let nc := fatFetch disk d c
        if d.cluster_eof_mark ≤ nc then .eof c n
        else if nc < 2 ∨ d.num_clusters ≤ nc then .bad nc c n
        else walkChain disk d nc (n + 1) target := by
  unfold walkChain
  rcases Nat.lt_or_ge n target with h | h
  · have h1 : target - n = (target - (n + 1)) + 1 := by omega
    rw [h1, if_neg (by omega)]
    rfl
  · have h1 : target - n = 0 := by omega
    rw [h1, if_pos h]
    rfl

/-- Walking to `t` factors through any intermediate target `m`. -/
theorem walk_factor (disk : Disk) (d : FatData) {c n m t : Nat}
    (h1 : n ≤ m) (h2 : m ≤ t) :
    walkChain disk d c n t =
      (match walkChain disk d c n m with
       | .ok c' n' => walkChain disk d c' n' t
       | r => r) := by
  unfold walkChain
  have he : t - n = (m - n) + (t - m) := by omega
  rw [he, walkChainGo_split]
  cases hw : walkChainGo disk d (m - n) c n with
  | ok c' n' =>
    have := walkChainGo_ok_target disk d _ _ _ _ _ hw
    have he2 : n' = m := by omega
    rw [he2]
  | eof c' n' => rfl
  | bad v c' n' => rfl

theorem walk_ok_target (disk : Disk) (d : FatData) {c n t c' n' : Nat}
    (h1 : n ≤ t) (h : walkChain disk d c n t = .ok c' n') : n' = t := by
  unfold walkChain at h
  have := walkChainGo_ok_target disk d _ _ _ _ _ h
  omega

/-- From a faithful cursor, the warm walk agrees with the cold walk. -/
theorem walk_from_valid (disk : Disk) (d : FatData) {c n t : Nat}
    (hv : validCursor disk d c n) (h1 : n ≤ t) :
    walkChain disk d c n t = walkChain disk d d.file_cluster 0 t := by
  have := walk_factor disk d (c := d.file_cluster) (n := 0) (m := n) (t := t)
    (by omega) h1
  rw [this, hv]

theorem walk_eof_mono (disk : Disk) (d : FatData) {c n t t' c' n' : Nat}
    (hle : t ≤ t') (h : walkChain disk d c n t = .eof c' n') :
    walkChain disk d c n t' = .eof c' n' := by
  unfold walkChain at h ⊢
  exact walkChainGo_eof_mono disk d _ _ _ _ _ _ (by omega) h

theorem walk_bad_mono (disk : Disk) (d : FatData) {c n t t' v c' n' : Nat}
    (hle : t ≤ t') (h : walkChain disk d c n t = .bad v c' n') :
    walkChain disk d c n t' = .bad v c' n' := by
  unfold walkChain at h ⊢
  exact walkChainGo_bad_mono disk d _ _ _ _ _ _ _ (by omega) h

/-- The partial cursor committed before an end-of-chain fetch is itself
a faithful chain position. -/
theorem walk_eof_state (disk : Disk) (d : FatData) {c n t c' n' : Nat}
    (h : walkChain disk d c n t = .eof c' n') :
    walkChain disk d c n n' = .ok c' n' ∧ n ≤ n' ∧
    d.cluster_eof_mark ≤ fatFetch disk d c' := by
  unfold walkChain at h ⊢
  obtain ⟨ha, hb, hc, hd⟩ := walkChainGo_eof_state disk d _ _ _ _ _ h
  exact ⟨hc, ha, hd⟩

theorem valid_zero (disk : Disk) (d : FatData) :
    validCursor disk d d.file_cluster 0 := by
  unfold validCursor walkChain
  simp [walkChainGo]

theorem valid_of_ok (disk : Disk) (d : FatData) {t c' n' : Nat}
    (h : walkChain disk d d.file_cluster 0 t = .ok c' n') :
    validCursor disk d c' n' := by
  unfold validCursor
  have he : n' = t := walk_ok_target disk d (by omega) h
  subst he
  exact h

theorem valid_of_eof (disk : Disk) (d : FatData) {t c' n' : Nat}
    (h : walkChain disk d d.file_cluster 0 t = .eof c' n') :
    validCursor disk d c' n' := by
  unfold validCursor
  exact (walk_eof_state disk d h).1

/-! ## Theorems: the outer read loop -/

theorem readLoopGo_fuel (disk : Disk) (d : FatData) :
    ∀ fuel₁ fuel₂ c n target off len, len ≤ fuel₁ → len ≤ fuel₂ →
      off < 1 <<< (d.cluster_bits + d.logical_sector_bits + 9) →
      readLoopGo disk d fuel₁ c n target off len =
      readLoopGo disk d fuel₂ c n target off len := by
  intro fuel₁
  induction fuel₁ with
  | zero =>
    intro fuel₂ c n target off len h1 h2 hoff
    have hl : len = 0 := by omega
    subst hl
    cases fuel₂ with
    | zero => rfl
    | succ f => simp [readLoopGo]
  | succ fuel ih =>
    intro fuel₂ c n target off len h1 h2 hoff
    by_cases hl : len = 0
    · subst hl
      cases fuel₂ with
      | zero => simp [readLoopGo]
      | succ f => simp [readLoopGo]
    · obtain ⟨f₂, rfl⟩ : ∃ f₂, fuel₂ = f₂ + 1 := ⟨fuel₂ - 1, by omega⟩
      simp only [readLoopGo, if_neg hl]
      cases hw : walkChain disk d c n target with
      | bad v c' n' => rfl
      | eof c' n' => rfl
      | ok c' n' =>
        have hsz : 1 ≤ min ((1 <<< (d.cluster_bits + d.logical_sector_bits + 9)) - off) len := by
          omega
        dsimp only
        rw [ih f₂ c' n' (target + 1) 0
            (len - min ((1 <<< (d.cluster_bits + d.logical_sector_bits + 9)) - off) len)
            (by omega) (by omega) (by simp [Nat.one_shiftLeft])]

/-- Single-step unfolding of the outer loop, in the shape of the C
loop. -/
theorem readLoop_eq (disk : Disk) (d : FatData) (c n target off len : Nat)
    (hoff : off < 1 <<< (d.cluster_bits + d.logical_sector_bits + 9)) :
    readLoop disk d c n target off len =
      if len = 0 then .ok ⟨[], [], c, n⟩
      else
        match walkChain disk d c n target with
        | .bad v _ _ => .error (.invalidCluster v)
        | .eof c' n' => .ok ⟨[], [], c', n'⟩
        | .ok c' n' =>
          let size := min ((1 <<< (d.cluster_bits + d.logical_sector_bits + 9)) - off) len
          match readLoop disk d c' n' (target + 1) 0 (len - size) with
          | .error e => .error e
          | .ok o => .ok ⟨readBytes disk (dataSector d c' * 512 + off) size ++ o.bytes,
                          c' :: o.trace, o.curc, o.curn⟩ := by
  unfold readLoop
  by_cases hl : len = 0
  · subst hl
    simp [readLoopGo]
  · obtain ⟨l, rfl⟩ : ∃ l, len = l + 1 := ⟨len - 1, by omega⟩
    simp only [readLoopGo, if_neg hl]
    cases hw : walkChain disk d c n (target) with
    | bad v c' n' => rfl
    | eof c' n' => rfl
    | ok c' n' =>
      have hsz : 1 ≤ min ((1 <<< (d.cluster_bits + d.logical_sector_bits + 9)) - off) (l + 1) := by
        omega
      dsimp only
      rw [readLoopGo_fuel disk d l
          (l + 1 - min ((1 <<< (d.cluster_bits + d.logical_sector_bits + 9)) - off) (l + 1))
          c' n' (target + 1) 0 _ (by omega) (by omega) (by simp [Nat.one_shiftLeft])]

theorem readLoop_len (disk : Disk) (d : FatData) :
    ∀ len c n target off o, off < 1 <<< (d.cluster_bits + d.logical_sector_bits + 9) →
      readLoop disk d c n target off len = .ok o → o.bytes.length ≤ len := by
  intro len
  induction len using Nat.strong_induction_on with
  | _ len ih =>
    intro c n target off o hoff h
    rw [readLoop_eq disk d c n target off len hoff] at h
    by_cases hl : len = 0
    · rw [if_pos hl] at h
      cases h
      simp [hl]
    · rw [if_neg hl] at h
      cases hw : walkChain disk d c n target with
      | bad v c' n' => rw [hw] at h; exact absurd h (by simp)
      | eof c' n' =>
        rw [hw] at h
        cases h
        simp
      | ok c' n' =>
        rw [hw] at h
        dsimp only at h
        set size := min ((1 <<< (d.cluster_bits + d.logical_sector_bits + 9)) - off) len with hsz
        have h1 : 1 ≤ size := by rw [hsz]; omega
        cases hr : readLoop disk d c' n' (target + 1) 0 (len - size) with
        | error e => rw [hr] at h; exact absurd h (by simp)
        | ok o' =>
          rw [hr] at h
          cases h
          have h2 := ih (len - size) (by omega) c' n' (target + 1) 0 o'
            (by simp [Nat.one_shiftLeft]) hr
          simp only [List.length_append]
          have h3 : (readBytes disk (dataSector d c' * 512 + off) size).length = size := by
            simp [readBytes]
          omega

theorem readLoop_err (disk : Disk) (d : FatData) :
    ∀ len c n target off e, off < 1 <<< (d.cluster_bits + d.logical_sector_bits + 9) →
      readLoop disk d c n target off len = .error e →
      ∃ v, e = .invalidCluster v ∧ v < d.cluster_eof_mark ∧
        (v < 2 ∨ d.num_clusters ≤ v) := by
  intro len
  induction len using Nat.strong_induction_on with
  | _ len ih =>
    intro c n target off e hoff h
    rw [readLoop_eq disk d c n target off len hoff] at h
    by_cases hl : len = 0
    · rw [if_pos hl] at h
      exact absurd h (by simp)
    · rw [if_neg hl] at h
      cases hw : walkChain disk d c n target with
      | bad v c' n' =>
        rw [hw] at h
        simp only [Except.error.injEq] at h
        obtain ⟨h1, h2⟩ := walkChainGo_bad_value disk d _ _ _ _ _ _ hw
        exact ⟨v, h.symm, h1, h2⟩
      | eof c' n' => rw [hw] at h; exact absurd h (by simp)
      | ok c' n' =>
        rw [hw] at h
        dsimp only at h
        set size := min ((1 <<< (d.cluster_bits + d.logical_sector_bits + 9)) - off) len with hsz
        have h1 : 1 ≤ size := by rw [hsz]; omega
        cases hr : readLoop disk d c' n' (target + 1) 0 (len - size) with
        | error e' =>
          rw [hr] at h
          simp only [Except.error.injEq] at h
          subst h
          exact ih (len - size) (by omega) c' n' (target + 1) 0 e'
            (by simp [Nat.one_shiftLeft]) hr
        | ok o' => rw [hr] at h; exact absurd h (by simp)

theorem readLoop_trace (disk : Disk) (d : FatData) :
    ∀ len c n target off o, off < 1 <<< (d.cluster_bits + d.logical_sector_bits + 9) →
      readLoop disk d c n target off len = .ok o →
      ∀ x ∈ o.trace, x = c ∨ (2 ≤ x ∧ x < d.num_clusters) := by
  intro len
  induction len using Nat.strong_induction_on with
  | _ len ih =>
    intro c n target off o hoff h
    rw [readLoop_eq disk d c n target off len hoff] at h
    by_cases hl : len = 0
    · rw [if_pos hl] at h
      cases h
      simp
    · rw [if_neg hl] at h
      cases hw : walkChain disk d c n target with
      | bad v c' n' => rw [hw] at h; exact absurd h (by simp)
      | eof c' n' =>
        rw [hw] at h
        cases h
        simp
      | ok c' n' =>
        rw [hw] at h
        dsimp only at h
        set size := min ((1 <<< (d.cluster_bits + d.logical_sector_bits + 9)) - off) len with hsz
        have h1 : 1 ≤ size := by rw [hsz]; omega
        cases hr : readLoop disk d c' n' (target + 1) 0 (len - size) with
        | error e => rw [hr] at h; exact absurd h (by simp)
        | ok o' =>
          rw [hr] at h
          cases h
          intro x hx
          simp only [List.mem_cons] at hx
          have hc' : c' = c ∨ (2 ≤ c' ∧ c' < d.num_clusters) :=
            walkChainGo_ok_cluster disk d _ _ _ _ _ hw
          rcases hx with rfl | hx
          · exact hc'
          · rcases ih (len - size) (by omega) c' n' (target + 1) 0 o'
                (by simp [Nat.one_shiftLeft]) hr x hx with h2 | h2
            · subst h2
              exact hc'
            · exact .inr h2

/-! ## Theorems: `grub_fat_read_data` inversion, C2 and C3 -/

theorem read_data_err {disk : Disk} {d : FatData} {offset len : Nat} {e : RdErr}
    (hfc : d.file_cluster ≠ 4294967295)
    (h : grub_fat_read_data disk d offset len = .err e) :
    readLoop disk d
      (if offset >>> (d.cluster_bits + d.logical_sector_bits + 9) < d.cur_cluster_num
       then d.file_cluster else d.cur_cluster)
      (if offset >>> (d.cluster_bits + d.logical_sector_bits + 9) < d.cur_cluster_num
       then 0 else d.cur_cluster_num)
      (offset >>> (d.cluster_bits + d.logical_sector_bits + 9))
      (offset % (1 <<< (d.cluster_bits + d.logical_sector_bits + 9))) len = .error e := by
  simp only [grub_fat_read_data, if_neg hfc] at h
  cases hr : readLoop disk d
      (if offset >>> (d.cluster_bits + d.logical_sector_bits + 9) < d.cur_cluster_num
       then d.file_cluster else d.cur_cluster)
      (if offset >>> (d.cluster_bits + d.logical_sector_bits + 9) < d.cur_cluster_num
       then 0 else d.cur_cluster_num)
      (offset >>> (d.cluster_bits + d.logical_sector_bits + 9))
      (offset % (1 <<< (d.cluster_bits + d.logical_sector_bits + 9))) len with
  | error e' =>
    rw [hr] at h
    dsimp only at h
    cases h
    rfl
  | ok o =>
    rw [hr] at h
    dsimp only at h
    exact absurd h (by simp)

theorem read_data_ok {disk : Disk} {d : FatData} {offset len : Nat}
    {bs tr : List Nat} {d' : FatData}
    (hfc : d.file_cluster ≠ 4294967295)
    (h : grub_fat_read_data disk d offset len = .ok bs tr d') :
    ∃ o, readLoop disk d
      (if offset >>> (d.cluster_bits + d.logical_sector_bits + 9) < d.cur_cluster_num
       then d.file_cluster else d.cur_cluster)
      (if offset >>> (d.cluster_bits + d.logical_sector_bits + 9) < d.cur_cluster_num
       then 0 else d.cur_cluster_num)
      (offset >>> (d.cluster_bits + d.logical_sector_bits + 9))
      (offset % (1 <<< (d.cluster_bits + d.logical_sector_bits + 9))) len = .ok o ∧
      bs = o.bytes ∧ tr = o.trace ∧ d' = setCursor d o.curc o.curn := by
  simp only [grub_fat_read_data, if_neg hfc] at h
  cases hr : readLoop disk d
      (if offset >>> (d.cluster_bits + d.logical_sector_bits + 9) < d.cur_cluster_num
       then d.file_cluster else d.cur_cluster)
      (if offset >>> (d.cluster_bits + d.logical_sector_bits + 9) < d.cur_cluster_num
       then 0 else d.cur_cluster_num)
      (offset >>> (d.cluster_bits + d.logical_sector_bits + 9))
      (offset % (1 <<< (d.cluster_bits + d.logical_sector_bits + 9))) len with
  | error e' =>
    rw [hr] at h
    dsimp only at h
    exact absurd h (by simp)
  | ok o =>
    rw [hr] at h
    dsimp only at h
    cases h
    exact ⟨o, rfl, rfl, rfl, rfl⟩

/-- C2 (amended): during the chain walk of `grub_fat_read_data` on a
cluster-chain file, the only error the reader raises is
"invalid cluster N" for a fetched FAT value that is below
`cluster_eof_mark` yet `< 2` or `≥ num_clusters` (a fetched value
`≥ cluster_eof_mark` ends the chain with the bytes delivered so far and
no error); and every physical cluster used for a data read is either
within `[2, num_clusters)` — when it was obtained from a FAT fetch — or
is the unvalidated starting cluster of the walk (`file_cluster` after a
cold restart, the memoized `cur_cluster` otherwise). -/
theorem c2_chain_validation (disk : Disk) (d : FatData) (offset len : Nat)
    (hfc : d.file_cluster ≠ 4294967295) :
    (∀ e, grub_fat_read_data disk d offset len = .err e →
        ∃ v, e = .invalidCluster v ∧ v < d.cluster_eof_mark ∧
          (v < 2 ∨ d.num_clusters ≤ v)) ∧
    (∀ bs tr d', grub_fat_read_data disk d offset len = .ok bs tr d' →
        ∀ c ∈ tr, c = startCluster d offset ∨ (2 ≤ c ∧ c < d.num_clusters)) := by
  constructor
  · intro e h
    exact readLoop_err disk d len _ _ _ _ e
      (Nat.mod_lt _ (by simp [Nat.one_shiftLeft])) (read_data_err hfc h)
  · intro bs tr d' h
    obtain ⟨o, hr, -, htr, -⟩ := read_data_ok hfc h
    intro c hc
    rw [htr] at hc
    exact readLoop_trace disk d len _ _ _ _ o
      (Nat.mod_lt _ (by simp [Nat.one_shiftLeft])) hr c hc

theorem c2_chain_validation_witness :
    ∃ v, RdErr.invalidCluster 0 = RdErr.invalidCluster v ∧
      v < dC.cluster_eof_mark ∧ (v < 2 ∨ dC.num_clusters ≤ v) :=
  (c2_chain_validation disk1 dC 512 1 (by decide)).1 (.invalidCluster 0) (by decide)

/-- C2 counterexample: the empty file `B` of volume 1 was opened through
the driver with first cluster 0 (straight from its directory record);
`grub_fat_read_data` then serves a 1-byte read *from cluster 0* — the
data-cluster trace is `[0]` and one byte (0xF8, in fact the first FAT
byte, since the wrapped sector arithmetic lands on the FAT) is
delivered with no error, even though `0 < 2`.  So not every physical
cluster read as data satisfies `2 ≤ c < num_clusters`. -/
theorem c2_counterexample :
    grub_fat_mount disk1 = .ok (mountOr disk1) ∧
    dB = applyEntry (mountOr disk1) ((rootV1.drop 96).take 32) ∧
    dB.attr &&& 0x10 = 0 ∧
    rdTrace (grub_fat_read_data disk1 dB 0 1) = some [0] ∧
    rdBytes (grub_fat_read_data disk1 dB 0 1) = some [0xf8] ∧
    (0 : Nat) < 2 := by
  decide

/-- C3 (amended): the positional reader delivers at most `len` bytes.
(It does not consult `file_size`: reads are bounded by the cluster
chain or the root area, not by the recorded file size.) -/
theorem c3_read_length (disk : Disk) (d : FatData) (offset len : Nat) :
    ∀ bs tr d', grub_fat_read_data disk d offset len = .ok bs tr d' →
      bs.length ≤ len := by
  intro bs tr d' h
  by_cases hfc : d.file_cluster = 4294967295
  · simp only [grub_fat_read_data, if_pos hfc] at h
    split_ifs at h with h1 h2 h3
    · simp only [RdOut.ok.injEq] at h
      obtain ⟨hbs, -, -⟩ := h
      subst hbs
      simp [readBytes]
    · simp only [RdOut.ok.injEq] at h
      obtain ⟨hbs, -, -⟩ := h
      subst hbs
      simp only [readBytes, List.length_map, List.length_range]
      generalize d.num_root_sectors <<< 9 = X at h1 ⊢
      omega
  · obtain ⟨o, hr, h1, -, -⟩ := read_data_ok hfc h
    subst h1
    exact readLoop_len disk d len _ _ _ _ o
      (Nat.mod_lt _ (by simp [Nat.one_shiftLeft])) hr

theorem c3_read_length_witness :
    ([48, 49, 50, 51, 52, 53, 54, 55, 56, 57, 0, 0] : List Nat).length ≤ 12 :=
  c3_read_length disk1 dA 0 12 [48, 49, 50, 51, 52, 53, 54, 55, 56, 57, 0, 0] [2]
    (setCursor dA 2 0) (by decide)

/-- C3 counterexample: file `A` of volume 1 has `file_size = 10`, yet
`read (offset := 100, len := 8)` delivers 8 bytes — the reader never
looks at `file_size`, it reads whatever the cluster chain covers.  In
particular a read at `offset ≥ file_size` does not return 0 bytes. -/
theorem c3_counterexample :
    grub_fat_mount disk1 = .ok (mountOr disk1) ∧
    dA = applyEntry (mountOr disk1) ((rootV1.drop 64).take 32) ∧
    dA.attr &&& 0x10 = 0 ∧ dA.file_size = 10 ∧ (10 : Nat) ≤ 100 ∧
    rdBytes (grub_fat_read_data disk1 dA 100 8) = some (List.replicate 8 0) ∧
    (List.replicate 8 0 : List Nat).length = 8 := by
  decide



/-! ## Cursor congruence: reads depend on the cursor only at the start -/

theorem setCursor_file_cluster (d : FatData) (x y : Nat) :
    (setCursor d x y).file_cluster = d.file_cluster := rfl

theorem setCursor_cluster_bits (d : FatData) (x y : Nat) :
    (setCursor d x y).cluster_bits = d.cluster_bits := rfl

theorem setCursor_logical_sector_bits (d : FatData) (x y : Nat) :
    (setCursor d x y).logical_sector_bits = d.logical_sector_bits := rfl

theorem setCursor_num_root_sectors (d : FatData) (x y : Nat) :
    (setCursor d x y).num_root_sectors = d.num_root_sectors := rfl

theorem setCursor_root_sector (d : FatData) (x y : Nat) :
    (setCursor d x y).root_sector = d.root_sector := rfl

theorem setCursor_cluster_eof_mark (d : FatData) (x y : Nat) :
    (setCursor d x y).cluster_eof_mark = d.cluster_eof_mark := rfl

theorem setCursor_num_clusters (d : FatData) (x y : Nat) :
    (setCursor d x y).num_clusters = d.num_clusters := rfl

theorem setCursor_cur_cluster (d : FatData) (x y : Nat) :
    (setCursor d x y).cur_cluster = x := rfl

theorem setCursor_cur_cluster_num (d : FatData) (x y : Nat) :
    (setCursor d x y).cur_cluster_num = y := rfl

theorem setCursor_setCursor (d : FatData) (x y u v : Nat) :
    setCursor (setCursor d x y) u v = setCursor d u v := rfl

theorem fresh_setCursor (d : FatData) (x y : Nat) :
    fresh (setCursor d x y) = fresh d := rfl

theorem fatFetch_setCursor (disk : Disk) (d : FatData) (x y c : Nat) :
    fatFetch disk (setCursor d x y) c = fatFetch disk d c := rfl

theorem dataSector_setCursor (d : FatData) (x y c : Nat) :
    dataSector (setCursor d x y) c = dataSector d c := rfl

theorem walkChainGo_setCursor (disk : Disk) (d : FatData) (x y : Nat) :
    ∀ fuel c n, walkChainGo disk (setCursor d x y) fuel c n =
      walkChainGo disk d fuel c n := by
  intro fuel
  induction fuel with
  | zero => intro c n; rfl
  | succ fuel ih =>
    intro c n
    simp only [walkChainGo, fatFetch_setCursor, setCursor_cluster_eof_mark,
      setCursor_num_clusters, ih]

theorem walkChain_setCursor (disk : Disk) (d : FatData) (x y c n target : Nat) :
    walkChain disk (setCursor d x y) c n target = walkChain disk d c n target := by
  unfold walkChain
  exact walkChainGo_setCursor disk d x y _ c n

theorem readLoopGo_setCursor (disk : Disk) (d : FatData) (x y : Nat) :
    ∀ fuel c n target off len,
      readLoopGo disk (setCursor d x y) fuel c n target off len =
      readLoopGo disk d fuel c n target off len := by
  intro fuel
  induction fuel with
  | zero => intro c n target off len; rfl
  | succ fuel ih =>
    intro c n target off len
    simp only [readLoopGo, walkChain_setCursor, dataSector_setCursor,
      setCursor_cluster_bits, setCursor_logical_sector_bits, ih]

theorem readLoop_setCursor (disk : Disk) (d : FatData) (x y c n target off len : Nat) :
    readLoop disk (setCursor d x y) c n target off len =
    readLoop disk d c n target off len := by
  unfold readLoop
  exact readLoopGo_setCursor disk d x y _ c n target off len

theorem byteAt_setCursor (disk : Disk) (d : FatData) (x y p : Nat) :
    byteAt disk (setCursor d x y) p = byteAt disk d p := by
  simp only [byteAt, walkChain_setCursor, setCursor_file_cluster,
    setCursor_cluster_bits, setCursor_logical_sector_bits, dataSector_setCursor]

theorem byteSeq_setCursor (disk : Disk) (d : FatData) (x y : Nat) :
    ∀ len s, byteSeq disk (setCursor d x y) s len = byteSeq disk d s len := by
  intro len
  induction len with
  | zero => intro s; rfl
  | succ len ih =>
    intro s
    simp only [byteSeq, byteAt_setCursor, ih]

theorem validCursor_setCursor (disk : Disk) (d : FatData) (x y c n : Nat) :
    validCursor disk (setCursor d x y) c n ↔ validCursor disk d c n := by
  unfold validCursor
  rw [walkChain_setCursor, setCursor_file_cluster]

theorem chainSafe_setCursor (disk : Disk) (d : FatData) (x y t : Nat) :
    chainSafe disk (setCursor d x y) t ↔ chainSafe disk d t := by
  unfold chainSafe
  rw [walkChain_setCursor, setCursor_file_cluster]

/-! ## Shift arithmetic for cluster-relative addressing -/

theorem shift_up_down (t q B : Nat) (hq : q < 1 <<< B) : (t <<< B + q) >>> B = t := by
  have hq2 : q < 2 ^ B := by rwa [Nat.one_shiftLeft] at hq
  simp only [Nat.shiftLeft_eq, Nat.shiftRight_eq_div_pow]
  rw [Nat.mul_comm, Nat.mul_add_div (Nat.two_pow_pos B), Nat.div_eq_of_lt hq2]
  omega

theorem shift_up_mod (t q B : Nat) (hq : q < 1 <<< B) : (t <<< B + q) % (1 <<< B) = q := by
  have hq2 : q < 2 ^ B := by rwa [Nat.one_shiftLeft] at hq
  simp only [Nat.shiftLeft_eq, Nat.one_shiftLeft, one_mul]
  rw [Nat.mul_comm t (2 ^ B), Nat.mul_add_mod, Nat.mod_eq_of_lt hq2]

theorem shift_succ_left (t B : Nat) : (t + 1) <<< B = t <<< B + 1 <<< B := by
  simp [Nat.shiftLeft_eq, Nat.add_mul]

theorem shiftRight_mono {a b : Nat} (k : Nat) (h : a ≤ b) : a >>> k ≤ b >>> k := by
  simp only [Nat.shiftRight_eq_div_pow]
  exact Nat.div_le_div_right h

theorem shift_decompose (offset B : Nat) :
    (offset >>> B) <<< B + offset % (1 <<< B) = offset := by
  simp only [Nat.shiftRight_eq_div_pow, Nat.shiftLeft_eq, Nat.one_shiftLeft, one_mul]
  rw [Nat.mul_comm]
  exact Nat.div_add_mod offset (2 ^ B)


/-! ## The pure byte view: truncation, splitting, chunking -/

theorem byteSeq_nil (disk : Disk) (d : FatData) (s : Nat)
    (h : byteAt disk d s = none) : ∀ m, byteSeq disk d s m = [] := by
  intro m
  cases m with
  | zero => rfl
  | succ m => simp [byteSeq, h]

theorem byteSeq_length (disk : Disk) (d : FatData) :
    ∀ len s, (byteSeq disk d s len).length ≤ len := by
  intro len
  induction len with
  | zero => intro s; simp [byteSeq]
  | succ len ih =>
    intro s
    simp only [byteSeq]
    cases hb : byteAt disk d s with
    | none => simp
    | some b =>
      simp only [List.length_cons]
      exact Nat.succ_le_succ (ih (s + 1))

theorem byteAt_none_mono (disk : Disk) (d : FatData) {p q : Nat} (hpq : p ≤ q)
    (h : byteAt disk d p = none) : byteAt disk d q = none := by
  simp only [byteAt] at h ⊢
  have hm : p >>> (d.cluster_bits + d.logical_sector_bits + 9) ≤
      q >>> (d.cluster_bits + d.logical_sector_bits + 9) := shiftRight_mono _ hpq
  cases hw : walkChain disk d d.file_cluster 0
      (p >>> (d.cluster_bits + d.logical_sector_bits + 9)) with
  | ok c n =>
    rw [hw] at h
    exact absurd h (by simp)
  | eof c n => rw [walk_eof_mono disk d hm hw]
  | bad v c n => rw [walk_bad_mono disk d hm hw]

theorem byteSeq_add (disk : Disk) (d : FatData) :
    ∀ a s b, byteSeq disk d s (a + b) =
      byteSeq disk d s a ++
        (if (byteSeq disk d s a).length = a then byteSeq disk d (s + a) b else []) := by
  intro a
  induction a with
  | zero => intro s b; simp [byteSeq]
  | succ a ih =>
    intro s b
    rw [show a + 1 + b = (a + b) + 1 by omega]
    cases hb : byteAt disk d s with
    | none => simp [byteSeq_nil disk d s hb]
    | some v =>
      simp only [byteSeq, hb]
      simp only [List.cons_append, List.length_cons]
      rw [ih (s + 1) b]
      have hc : ((byteSeq disk d (s + 1) a).length + 1 = a + 1) =
          ((byteSeq disk d (s + 1) a).length = a) := by simp
      rw [show s + 1 + a = s + (a + 1) by omega]
      simp only [hc]

theorem byteSeq_stop (disk : Disk) (d : FatData) :
    ∀ a s, (byteSeq disk d s a).length ≠ a → ∀ m, byteSeq disk d (s + a) m = [] := by
  intro a
  induction a with
  | zero => intro s h; exact absurd rfl h
  | succ a ih =>
    intro s h m
    rw [show s + (a + 1) = s + 1 + a by omega]
    cases hb : byteAt disk d s with
    | none =>
      exact byteSeq_nil disk d _ (byteAt_none_mono disk d (by omega) hb) m
    | some v =>
      refine ih (s + 1) ?_ m
      intro hlen
      exact h (by simp [byteSeq, hb, hlen])

theorem byteSeq_chunk (disk : Disk) (d : FatData) :
    ∀ k s m (g : Nat → Nat),
      (∀ j, j < k → byteAt disk d (s + j) = some (g j)) →
      byteSeq disk d s (k + m) = (List.range k).map g ++ byteSeq disk d (s + k) m := by
  intro k
  induction k with
  | zero => intro s m g hj; simp
  | succ k ih =>
    intro s m g hj
    rw [show k + 1 + m = (k + m) + 1 by omega]
    have h0 : byteAt disk d s = some (g 0) := by
      have := hj 0 (by omega)
      simpa using this
    simp only [byteSeq, h0]
    rw [ih (s + 1) m (fun j => g (j + 1))
        (fun j hjk => by
          have := hj (j + 1) (by omega)
          rwa [show s + (j + 1) = s + 1 + j by omega] at this)]
    rw [List.range_succ_eq_map, List.map_cons, List.map_map]
    rw [show s + 1 + k = s + (k + 1) by omega]
    rfl


/-! ## Chain safety and the outer loop against the pure byte view -/

theorem chainSafe_down (disk : Disk) (d : FatData) {t T : Nat} (htT : t ≤ T)
    (h : chainSafe disk d T) : chainSafe disk d t := by
  intro v c n hbad
  exact h v c n (walk_bad_mono disk d htT hbad)

theorem chainSafe_of_ok (disk : Disk) (d : FatData) {t c n : Nat}
    (h : walkChain disk d d.file_cluster 0 t = .ok c n) : chainSafe disk d t := by
  intro v c' n'
  rw [h]
  simp

theorem chainSafe_of_eof (disk : Disk) (d : FatData) {t c n : Nat}
    (h : walkChain disk d d.file_cluster 0 t = .eof c n) : chainSafe disk d t := by
  intro v c' n'
  rw [h]
  simp

theorem readLoop_warm (disk : Disk) (d : FatData) {c n target : Nat} (off len : Nat)
    (hoff : off < 1 <<< (d.cluster_bits + d.logical_sector_bits + 9))
    (hv : validCursor disk d c n) (hnt : n ≤ target) (hlz : len ≠ 0) :
    readLoop disk d c n target off len =
    readLoop disk d d.file_cluster 0 target off len := by
  rw [readLoop_eq disk d c n target off len hoff,
      readLoop_eq disk d d.file_cluster 0 target off len hoff,
      if_neg hlz, if_neg hlz, walk_from_valid disk d hv hnt]

theorem readLoop_valid (disk : Disk) (d : FatData) :
    ∀ len c n target off o,
      off < 1 <<< (d.cluster_bits + d.logical_sector_bits + 9) →
      validCursor disk d c n → n ≤ target →
      readLoop disk d c n target off len = .ok o →
      validCursor disk d o.curc o.curn := by
  intro len
  induction len using Nat.strong_induction_on with
  | _ len ih =>
    intro c n target off o hoff hv hnt h
    rw [readLoop_eq disk d c n target off len hoff] at h
    by_cases hl : len = 0
    · rw [if_pos hl] at h
      cases h
      exact hv
    · rw [if_neg hl] at h
      cases hw : walkChain disk d c n target with
      | bad v c' n' => rw [hw] at h; exact Except.noConfusion h
      | eof c' n' =>
        rw [hw] at h
        cases h
        exact valid_of_eof disk d (by rw [← walk_from_valid disk d hv hnt]; exact hw)
      | ok c' n' =>
        rw [hw] at h
        dsimp only at h
        have hcold : walkChain disk d d.file_cluster 0 target = .ok c' n' := by
          rw [← walk_from_valid disk d hv hnt]; exact hw
        have hv' : validCursor disk d c' n' := valid_of_ok disk d hcold
        have hn' : n' = target := walk_ok_target disk d (by omega) hcold
        set size := min ((1 <<< (d.cluster_bits + d.logical_sector_bits + 9)) - off) len
          with hsz
        have h1 : 1 ≤ size := by rw [hsz]; omega
        cases hr : readLoop disk d c' n' (target + 1) 0 (len - size) with
        | error e => rw [hr] at h; exact Except.noConfusion h
        | ok o' =>
          rw [hr] at h
          cases h
          exact ih (len - size) (by omega) c' n' (target + 1) 0 o'
            (by simp [Nat.one_shiftLeft]) hv' (by omega) hr

theorem readLoop_bytes (disk : Disk) (d : FatData) :
    ∀ len c n target off o,
      off < 1 <<< (d.cluster_bits + d.logical_sector_bits + 9) →
      validCursor disk d c n → n ≤ target →
      readLoop disk d c n target off len = .ok o →
      o.bytes = byteSeq disk d
        (target <<< (d.cluster_bits + d.logical_sector_bits + 9) + off) len := by
  intro len
  induction len using Nat.strong_induction_on with
  | _ len ih =>
    intro c n target off o hoff hv hnt h
    rw [readLoop_eq disk d c n target off len hoff] at h
    by_cases hl : len = 0
    · subst hl
      rw [if_pos rfl] at h
      cases h
      rfl
    · rw [if_neg hl] at h
      cases hw : walkChain disk d c n target with
      | bad v c' n' => rw [hw] at h; exact Except.noConfusion h
      | eof c' n' =>
        rw [hw] at h
        cases h
        have hcold : walkChain disk d d.file_cluster 0 target = .eof c' n' := by
          rw [← walk_from_valid disk d hv hnt]; exact hw
        have hnone : byteAt disk d
            (target <<< (d.cluster_bits + d.logical_sector_bits + 9) + off) = none := by
          simp only [byteAt]
          rw [shift_up_down target off _ hoff, hcold]
        exact (byteSeq_nil disk d _ hnone len).symm
      | ok c' n' =>
        rw [hw] at h
        dsimp only at h
        have hcold : walkChain disk d d.file_cluster 0 target = .ok c' n' := by
          rw [← walk_from_valid disk d hv hnt]; exact hw
        have hv' : validCursor disk d c' n' := valid_of_ok disk d hcold
        have hn' : n' = target := walk_ok_target disk d (by omega) hcold
        set B := d.cluster_bits + d.logical_sector_bits + 9 with hB
        set size := min ((1 <<< B) - off) len with hsz
        have h1 : 1 ≤ size := by rw [hsz]; omega
        cases hr : readLoop disk d c' n' (target + 1) 0 (len - size) with
        | error e => rw [hr] at h; exact Except.noConfusion h
        | ok o' =>
          rw [hr] at h
          cases h
          dsimp only
          have hbytes := ih (len - size) (by omega) c' n' (target + 1) 0 o'
            (by simp [Nat.one_shiftLeft]) hv' (by omega) hr
          have hchunk : ∀ j, j < size →
              byteAt disk d (target <<< B + off + j) =
                some (disk (dataSector d c' * 512 + off + j)) := by
            intro j hj
            simp only [byteAt]
            rw [show target <<< B + off + j = target <<< B + (off + j) by omega]
            rw [show d.cluster_bits + d.logical_sector_bits + 9 = B from hB.symm]
            rw [shift_up_down target (off + j) B (by omega), hcold]
            dsimp only
            rw [shift_up_mod target (off + j) B (by omega)]
            rw [show dataSector d c' * 512 + (off + j) =
                dataSector d c' * 512 + off + j by omega]
          have hsplit : byteSeq disk d (target <<< B + off) len =
              (List.range size).map (fun j => disk (dataSector d c' * 512 + off + j)) ++
              byteSeq disk d (target <<< B + off + size) (len - size) := by
            conv_lhs => rw [show len = size + (len - size) by omega]
            exact byteSeq_chunk disk d size _ (len - size) _ hchunk
          have hrb : readBytes disk (dataSector d c' * 512 + off) size =
              (List.range size).map (fun j => disk (dataSector d c' * 512 + off + j)) := rfl
          have htail : byteSeq disk d ((target + 1) <<< B + 0) (len - size) =
              byteSeq disk d (target <<< B + off + size) (len - size) := by
            by_cases hz : len - size = 0
            · rw [hz]
              rfl
            · have hs : size = (1 <<< B) - off := by omega
              rw [show (target + 1) <<< B + 0 = target <<< B + off + size by
                rw [hs, shift_succ_left]
                omega]
          rw [hsplit, hbytes, htail, hrb]

theorem readLoop_safe (disk : Disk) (d : FatData) :
    ∀ len c n target off o,
      off < 1 <<< (d.cluster_bits + d.logical_sector_bits + 9) →
      validCursor disk d c n → n ≤ target → len ≠ 0 →
      readLoop disk d c n target off len = .ok o →
      ∀ t, t <<< (d.cluster_bits + d.logical_sector_bits + 9) <
          target <<< (d.cluster_bits + d.logical_sector_bits + 9) + off + len →
        chainSafe disk d t := by
  intro len
  induction len using Nat.strong_induction_on with
  | _ len ih =>
    intro c n target off o hoff hv hnt hlz h t ht
    rw [readLoop_eq disk d c n target off len hoff, if_neg hlz] at h
    cases hw : walkChain disk d c n target with
    | bad v c' n' => rw [hw] at h; exact Except.noConfusion h
    | eof c' n' =>
      have hcold : walkChain disk d d.file_cluster 0 target = .eof c' n' := by
        rw [← walk_from_valid disk d hv hnt]; exact hw
      by_cases htt : t ≤ target
      · exact chainSafe_down disk d htt (chainSafe_of_eof disk d hcold)
      · intro v c0 n0
        rw [walk_eof_mono disk d (by omega) hcold]
        simp
    | ok c' n' =>
      have hcold : walkChain disk d d.file_cluster 0 target = .ok c' n' := by
        rw [← walk_from_valid disk d hv hnt]; exact hw
      have hsafeT : chainSafe disk d target := chainSafe_of_ok disk d hcold
      by_cases htt : t ≤ target
      · exact chainSafe_down disk d htt hsafeT
      · rw [hw] at h
        dsimp only at h
        have hv' : validCursor disk d c' n' := valid_of_ok disk d hcold
        have hn' : n' = target := walk_ok_target disk d (by omega) hcold
        set B := d.cluster_bits + d.logical_sector_bits + 9 with hB
        set size := min ((1 <<< B) - off) len with hsz
        have h1 : 1 ≤ size := by rw [hsz]; omega
        have htB : (target + 1) <<< B ≤ t <<< B := by
          simp only [Nat.shiftLeft_eq]
          exact Nat.mul_le_mul_right _ (by omega)
        rw [shift_succ_left] at htB
        cases hr : readLoop disk d c' n' (target + 1) 0 (len - size) with
        | error e => rw [hr] at h; exact Except.noConfusion h
        | ok o' =>
          have hls : len - size ≠ 0 := by
            intro hz
            have hle : off + len ≤ 1 <<< B := by omega
            omega
          refine ih (len - size) (by omega) c' n' (target + 1) 0 o'
            (by simp [Nat.one_shiftLeft]) hv' (by omega) hls hr t ?_
          rw [shift_succ_left]
          have hsize : size = (1 <<< B) - off ∨ size = len := by omega
          rcases hsize with hs | hs
          · omega
          · exact absurd (by omega) hls

theorem readLoop_total (disk : Disk) (d : FatData) :
    ∀ len c n target off,
      off < 1 <<< (d.cluster_bits + d.logical_sector_bits + 9) →
      validCursor disk d c n → n ≤ target →
      (∀ t, t <<< (d.cluster_bits + d.logical_sector_bits + 9) <
          target <<< (d.cluster_bits + d.logical_sector_bits + 9) + off + len →
        chainSafe disk d t) →
      ∃ o, readLoop disk d c n target off len = .ok o := by
  intro len
  induction len using Nat.strong_induction_on with
  | _ len ih =>
    intro c n target off hoff hv hnt hsafe
    rw [readLoop_eq disk d c n target off len hoff]
    by_cases hl : len = 0
    · rw [if_pos hl]
      exact ⟨_, rfl⟩
    · rw [if_neg hl]
      have hsafeT : chainSafe disk d target := hsafe target (by omega)
      cases hw : walkChain disk d c n target with
      | bad v c' n' =>
        exfalso
        have hcold : walkChain disk d d.file_cluster 0 target = .bad v c' n' := by
          rw [← walk_from_valid disk d hv hnt]; exact hw
        exact hsafeT v c' n' hcold
      | eof c' n' => exact ⟨_, rfl⟩
      | ok c' n' =>
        have hcold : walkChain disk d d.file_cluster 0 target = .ok c' n' := by
          rw [← walk_from_valid disk d hv hnt]; exact hw
        have hv' : validCursor disk d c' n' := valid_of_ok disk d hcold
        have hn' : n' = target := walk_ok_target disk d (by omega) hcold
        set B := d.cluster_bits + d.logical_sector_bits + 9 with hB
        set size := min ((1 <<< B) - off) len with hsz
        have h1 : 1 ≤ size := by rw [hsz]; omega
        obtain ⟨o', ho'⟩ := ih (len - size) (by omega) c' n' (target + 1) 0
          (by simp [Nat.one_shiftLeft]) hv' (by omega) (by
            intro t ht
            by_cases htt : t ≤ target
            · exact chainSafe_down disk d htt hsafeT
            · refine hsafe t ?_
              rw [shift_succ_left] at ht
              have hsize : size = (1 <<< B) - off ∨ size = len := by omega
              rcases hsize with hs | hs
              · omega
              · exfalso
                have htB : (target + 1) <<< B ≤ t <<< B := by
                  simp only [Nat.shiftLeft_eq]
                  exact Nat.mul_le_mul_right _ (by omega)
                rw [shift_succ_left] at htB
                omega)
        dsimp only
        rw [ho']
        exact ⟨_, rfl⟩


/-! ## `grub_fat_read_data` as a pure function of `(offset, len)` -/

theorem goodCur_fresh (disk : Disk) (d : FatData) : goodCur disk (fresh d) :=
  Or.inl rfl

theorem rdView_ok {r : RdOut} {bs tr : List Nat}
    (h : rdView r = .ok (bs, tr)) : ∃ s, r = .ok bs tr s := by
  cases r with
  | err e => exact absurd h (by simp [rdView])
  | ok bs' tr' s =>
    simp only [rdView, Except.ok.injEq, Prod.mk.injEq] at h
    exact ⟨s, by rw [h.1, h.2]⟩

/-- The start cursor `grub_fat_read_data` hands to the outer loop is a
faithful chain position not past the target. -/
theorem start_valid (disk : Disk) (d : FatData) (offset : Nat)
    (hg : goodCur disk d)
    (hlog : offset >>> (d.cluster_bits + d.logical_sector_bits + 9) < 4294967295) :
    validCursor disk d
      (if offset >>> (d.cluster_bits + d.logical_sector_bits + 9) < d.cur_cluster_num
       then d.file_cluster else d.cur_cluster)
      (if offset >>> (d.cluster_bits + d.logical_sector_bits + 9) < d.cur_cluster_num
       then 0 else d.cur_cluster_num) ∧
    (if offset >>> (d.cluster_bits + d.logical_sector_bits + 9) < d.cur_cluster_num
     then 0 else d.cur_cluster_num) ≤
      offset >>> (d.cluster_bits + d.logical_sector_bits + 9) := by
  by_cases hcc : offset >>> (d.cluster_bits + d.logical_sector_bits + 9) <
      d.cur_cluster_num
  · rw [if_pos hcc, if_pos hcc]
    exact ⟨valid_zero disk d, Nat.zero_le _⟩
  · rw [if_neg hcc, if_neg hcc]
    rcases hg with hs | hv
    · exfalso
      rw [hs] at hcc
      exact hcc hlog
    · exact ⟨hv, by omega⟩

/-- A successful cluster-path read delivers exactly the pure byte view
of the requested range. -/
theorem read_data_bytes {disk : Disk} {d : FatData} {offset len : Nat}
    {bs tr : List Nat} {d' : FatData}
    (hfc : d.file_cluster ≠ 4294967295) (hg : goodCur disk d)
    (hlog : offset >>> (d.cluster_bits + d.logical_sector_bits + 9) < 4294967295)
    (h : grub_fat_read_data disk d offset len = .ok bs tr d') :
    bs = byteSeq disk d offset len := by
  obtain ⟨o, hr, hbs, -, -⟩ := read_data_ok hfc h
  obtain ⟨hv0, hn0⟩ := start_valid disk d offset hg hlog
  have hby := readLoop_bytes disk d len _ _ _ _ o
    (Nat.mod_lt _ (by simp [Nat.one_shiftLeft])) hv0 hn0 hr
  rw [shift_decompose offset (d.cluster_bits + d.logical_sector_bits + 9)] at hby
  rw [hbs, hby]

/-- A successful cluster-path read leaves the base handle with a good
cursor. -/
theorem read_data_good {disk : Disk} {d : FatData} {offset len : Nat}
    {bs tr : List Nat} {d' : FatData}
    (hfc : d.file_cluster ≠ 4294967295) (hg : goodCur disk d)
    (hlog : offset >>> (d.cluster_bits + d.logical_sector_bits + 9) < 4294967295)
    (h : grub_fat_read_data disk d offset len = .ok bs tr d') :
    goodCur disk d' ∧ ∃ x y, d' = setCursor d x y := by
  obtain ⟨o, hr, -, -, hd'⟩ := read_data_ok hfc h
  obtain ⟨hv0, hn0⟩ := start_valid disk d offset hg hlog
  have hvout : validCursor disk d o.curc o.curn := readLoop_valid disk d len _ _ _ _ o
    (Nat.mod_lt _ (by simp [Nat.one_shiftLeft])) hv0 hn0 hr
  subst hd'
  refine ⟨Or.inr ?_, o.curc, o.curn, rfl⟩
  rw [setCursor_cur_cluster, setCursor_cur_cluster_num]
  exact (validCursor_setCursor disk d o.curc o.curn o.curc o.curn).mpr hvout

/-- The cold read, reduced to the outer loop from the chain head. -/
theorem read_data_view_loop (disk : Disk) (d : FatData) (offset len : Nat)
    (hfc : d.file_cluster ≠ 4294967295)
    (hlog : offset >>> (d.cluster_bits + d.logical_sector_bits + 9) < 4294967295) :
    rdView (grub_fat_read_data disk (fresh d) offset len) =
      match readLoop disk d d.file_cluster 0
        (offset >>> (d.cluster_bits + d.logical_sector_bits + 9))
        (offset % (1 <<< (d.cluster_bits + d.logical_sector_bits + 9))) len with
      | .error e => .error e
      | .ok o => .ok (o.bytes, o.trace) := by
  have hfcf : ¬((fresh d).file_cluster = 4294967295) := hfc
  simp only [grub_fat_read_data, if_neg hfcf]
  simp only [fresh, setCursor_file_cluster, setCursor_cluster_bits,
    setCursor_logical_sector_bits, setCursor_cur_cluster, setCursor_cur_cluster_num,
    readLoop_setCursor]
  rw [if_pos hlog, if_pos hlog]
  cases hr : readLoop disk d d.file_cluster 0
      (offset >>> (d.cluster_bits + d.logical_sector_bits + 9))
      (offset % (1 <<< (d.cluster_bits + d.logical_sector_bits + 9))) len with
  | error e => rfl
  | ok o => rfl

/-- Purity of the cluster path: starting from any good cursor, a read
delivers the same bytes, trace and error as the cold read. -/
theorem read_data_pure (disk : Disk) (d : FatData) (offset len : Nat)
    (hfc : d.file_cluster ≠ 4294967295) (hg : goodCur disk d)
    (hlog : offset >>> (d.cluster_bits + d.logical_sector_bits + 9) < 4294967295) :
    rdView (grub_fat_read_data disk d offset len) =
    rdView (grub_fat_read_data disk (fresh d) offset len) := by
  rw [read_data_view_loop disk d offset len hfc hlog]
  simp only [grub_fat_read_data, if_neg hfc]
  by_cases hcc : offset >>> (d.cluster_bits + d.logical_sector_bits + 9) <
      d.cur_cluster_num
  · rw [if_pos hcc, if_pos hcc]
    cases hr : readLoop disk d d.file_cluster 0
        (offset >>> (d.cluster_bits + d.logical_sector_bits + 9))
        (offset % (1 <<< (d.cluster_bits + d.logical_sector_bits + 9))) len with
    | error e => rfl
    | ok o => rfl
  · rw [if_neg hcc, if_neg hcc]
    rcases hg with hs | hv
    · exfalso
      rw [hs] at hcc
      exact hcc hlog
    · by_cases hl0 : len = 0
      · subst hl0
        rfl
      · rw [@readLoop_warm disk d d.cur_cluster d.cur_cluster_num
          (offset >>> (d.cluster_bits + d.logical_sector_bits + 9))
          (offset % (1 <<< (d.cluster_bits + d.logical_sector_bits + 9))) len
          (Nat.mod_lt _ (by simp [Nat.one_shiftLeft])) hv (by omega) hl0]
        cases hr : readLoop disk d d.file_cluster 0
            (offset >>> (d.cluster_bits + d.logical_sector_bits + 9))
            (offset % (1 <<< (d.cluster_bits + d.logical_sector_bits + 9))) len with
        | error e => rfl
        | ok o => rfl

/-- From any reachable handle state, a read has the same
cursor-independent view as the cold read on the base handle. -/
theorem stateOk_view (disk : Disk) (d dz : FatData) (offset len : Nat)
    (hst : stateOk disk d dz)
    (hlog : offset >>> (d.cluster_bits + d.logical_sector_bits + 9) < 4294967295) :
    rdView (grub_fat_read_data disk dz offset len) =
    rdView (grub_fat_read_data disk (fresh d) offset len) := by
  rcases hst with ⟨hfc, rfl⟩ | ⟨hfc, hg, x, y, rfl⟩
  · have hfcf : (fresh dz).file_cluster = 4294967295 := hfc
    simp only [grub_fat_read_data, fresh, setCursor_file_cluster,
      setCursor_num_root_sectors, setCursor_root_sector, if_pos hfc]
    split <;> split <;> rfl
  · have h1 := read_data_pure disk (setCursor d x y) offset len
      (by rwa [setCursor_file_cluster]) hg
      (by rwa [setCursor_cluster_bits, setCursor_logical_sector_bits])
    rwa [fresh_setCursor] at h1

/-- Successful reads keep the handle within the reachable states. -/
theorem stateOk_step (disk : Disk) (d dz : FatData) (offset len : Nat)
    {bs tr : List Nat} {d' : FatData}
    (hst : stateOk disk d dz)
    (hlog : offset >>> (d.cluster_bits + d.logical_sector_bits + 9) < 4294967295)
    (h : grub_fat_read_data disk dz offset len = .ok bs tr d') :
    stateOk disk d d' := by
  rcases hst with ⟨hfc, rfl⟩ | ⟨hfc, hg, x, y, rfl⟩
  · left
    refine ⟨hfc, ?_⟩
    simp only [grub_fat_read_data, if_pos hfc] at h
    split_ifs at h with h1 h2 h3
    · simp only [RdOut.ok.injEq] at h
      exact h.2.2.symm
    · simp only [RdOut.ok.injEq] at h
      exact h.2.2.symm
  · right
    obtain ⟨hg', x', y', hd'⟩ := read_data_good (d := setCursor d x y)
      (by rwa [setCursor_file_cluster]) hg
      (by rwa [setCursor_cluster_bits, setCursor_logical_sector_bits]) h
    refine ⟨hfc, hg', x', y', ?_⟩
    rw [hd', setCursor_setCursor]


theorem fresh_file_cluster (d : FatData) : (fresh d).file_cluster = d.file_cluster := rfl

theorem fresh_cur_cluster_num (d : FatData) : (fresh d).cur_cluster_num = 4294967295 := rfl

theorem fresh_cluster_bits (d : FatData) : (fresh d).cluster_bits = d.cluster_bits := rfl

theorem fresh_logical_sector_bits (d : FatData) :
    (fresh d).logical_sector_bits = d.logical_sector_bits := rfl

theorem readLoop_fresh (disk : Disk) (d : FatData) (c n target off len : Nat) :
    readLoop disk (fresh d) c n target off len = readLoop disk d c n target off len :=
  readLoop_setCursor disk d d.file_cluster 4294967295 c n target off len

/-- Running the reads of a partition in sequence, threading the handle,
delivers exactly the pure byte view of the covered range. -/
theorem readsOk_byteSeq (disk : Disk) (d : FatData)
    (hfc : d.file_cluster ≠ 4294967295) :
    ∀ ls s x y, goodCur disk (setCursor d x y) →
      (s + ls.sum) >>> (d.cluster_bits + d.logical_sector_bits + 9) < 4294967295 →
      (∀ t, t <<< (d.cluster_bits + d.logical_sector_bits + 9) < s + ls.sum →
        chainSafe disk d t) →
      ∃ dEnd, readsOk disk (setCursor d x y) (partPairs s ls) =
        some (byteSeq disk d s ls.sum, dEnd) := by
  intro ls
  induction ls with
  | nil =>
    intro s x y hg hlog hsafe
    exact ⟨setCursor d x y, rfl⟩
  | cons l rest ih =>
    intro s x y hg hlog hsafe
    have hsum : (l :: rest).sum = l + rest.sum := by simp
    have hlogs : s >>> (d.cluster_bits + d.logical_sector_bits + 9) < 4294967295 :=
      lt_of_le_of_lt (shiftRight_mono _ (by omega)) hlog
    have hoff : s % (1 <<< (d.cluster_bits + d.logical_sector_bits + 9)) <
        1 <<< (d.cluster_bits + d.logical_sector_bits + 9) :=
      Nat.mod_lt _ (by simp [Nat.one_shiftLeft])
    obtain ⟨o, ho⟩ := readLoop_total disk d l d.file_cluster 0
      (s >>> (d.cluster_bits + d.logical_sector_bits + 9))
      (s % (1 <<< (d.cluster_bits + d.logical_sector_bits + 9)))
      hoff (valid_zero disk d) (Nat.zero_le _)
      (by
        intro t ht
        rw [show (s >>> (d.cluster_bits + d.logical_sector_bits + 9)) <<<
              (d.cluster_bits + d.logical_sector_bits + 9) +
              s % (1 <<< (d.cluster_bits + d.logical_sector_bits + 9)) + l = s + l by
            rw [shift_decompose]] at ht
        refine hsafe t ?_
        rw [hsum]
        omega)
    have hview := read_data_view_loop disk d s l hfc hlogs
    rw [ho] at hview
    dsimp only at hview
    have hsv := stateOk_view disk d (setCursor d x y) s l
      (Or.inr ⟨hfc, hg, x, y, rfl⟩) hlogs
    rw [hview] at hsv
    obtain ⟨d1, hd1⟩ := rdView_ok hsv
    have hbytes : o.bytes = byteSeq disk d s l := by
      have hby := readLoop_bytes disk d l d.file_cluster 0
        (s >>> (d.cluster_bits + d.logical_sector_bits + 9))
        (s % (1 <<< (d.cluster_bits + d.logical_sector_bits + 9))) o
        hoff (valid_zero disk d) (Nat.zero_le _) ho
      rwa [shift_decompose s (d.cluster_bits + d.logical_sector_bits + 9)] at hby
    have hst1 : stateOk disk d d1 := stateOk_step disk d (setCursor d x y) s l
      (Or.inr ⟨hfc, hg, x, y, rfl⟩) hlogs hd1
    rcases hst1 with ⟨hfc', -⟩ | ⟨-, hg1, x1, y1, hd1e⟩
    · exact absurd hfc' hfc
    · subst hd1e
      obtain ⟨dEnd, hrest⟩ := ih (s + l) x1 y1 hg1
        (by
          rw [show s + l + rest.sum = s + (l :: rest).sum by rw [hsum]; omega]
          exact hlog)
        (by
          intro t ht
          refine hsafe t ?_
          rw [hsum]
          omega)
      refine ⟨dEnd, ?_⟩
      simp only [partPairs, readsOk, hd1, hrest, hsum]
      rw [hbytes, byteSeq_add disk d l s rest.sum]
      by_cases hfull : (byteSeq disk d s l).length = l
      · rw [if_pos hfull]
      · rw [if_neg hfull, byteSeq_stop disk d l s hfull rest.sum]

/-- C4 (confirmed, for cluster-chain files and 32-bit-reachable ranges):
the bytes and the cluster trace delivered by `grub_fat_read_data` depend
only on the requested `(offset, len)`, never on the cursor left by
earlier reads — re-reading any range from any good cursor state (in
particular after seeking backwards) yields the same view as a cold
read — and running the reads of any partition `ls` of `[0, N)` in
sequence on a freshly opened handle concatenates to exactly the bytes
of the single read `(0, N)`. -/
theorem c4_reader_purity (disk : Disk) (d : FatData)
    (hfc : d.file_cluster ≠ 4294967295)
    (N : Nat)
    (hN : N >>> (d.cluster_bits + d.logical_sector_bits + 9) < 4294967295)
    (ls : List Nat) (hsum : ls.sum = N)
    (bs tr : List Nat) (d₁ : FatData)
    (hone : grub_fat_read_data disk (fresh d) 0 N = .ok bs tr d₁) :
    (∃ dEnd, readsOk disk (fresh d) (partPairs 0 ls) = some (bs, dEnd)) ∧
    (∀ x y a l, goodCur disk (setCursor d x y) →
      a >>> (d.cluster_bits + d.logical_sector_bits + 9) < 4294967295 →
      rdView (grub_fat_read_data disk (setCursor d x y) a l) =
      rdView (grub_fat_read_data disk (fresh d) a l)) := by
  constructor
  · have hfcf : (fresh d).file_cluster ≠ 4294967295 := hfc
    have hlog0 : (0 : Nat) >>> (d.cluster_bits + d.logical_sector_bits + 9) <
        4294967295 := by
      rw [Nat.zero_shiftRight]
      omega
    have hbs : bs = byteSeq disk d 0 N := by
      have hb1 := read_data_bytes hfcf (goodCur_fresh disk d) (by exact hlog0) hone
      have hb2 : byteSeq disk (fresh d) 0 N = byteSeq disk d 0 N :=
        byteSeq_setCursor disk d d.file_cluster 4294967295 N 0
      rw [hb1]
      exact hb2
    have hsafe : ∀ t, t <<< (d.cluster_bits + d.logical_sector_bits + 9) < 0 + N →
        chainSafe disk d t := by
      intro t ht
      by_cases hNz : N = 0
      · subst hNz
        exact absurd ht (Nat.not_lt_zero _)
      · obtain ⟨o, hr, -, -, -⟩ := read_data_ok hfcf hone
        simp only [fresh_cur_cluster_num, fresh_file_cluster, fresh_cluster_bits,
          fresh_logical_sector_bits, readLoop_fresh, Nat.zero_shiftRight,
          Nat.zero_mod] at hr
        rw [if_pos (show (0 : Nat) < 4294967295 by omega),
            if_pos (show (0 : Nat) < 4294967295 by omega)] at hr
        refine readLoop_safe disk d N d.file_cluster 0 0 0 o
          (by simp [Nat.one_shiftLeft]) (valid_zero disk d) (Nat.le_refl 0) hNz hr t ?_
        rw [Nat.zero_shiftLeft]
        omega
    obtain ⟨dEnd, hro⟩ := readsOk_byteSeq disk d hfc ls 0 d.file_cluster 4294967295
      (goodCur_fresh disk d)
      (by
        rw [Nat.zero_add, hsum]
        exact hN)
      (by
        intro t ht
        rw [hsum] at ht
        exact hsafe t ht)
    refine ⟨dEnd, ?_⟩
    rw [hbs, show byteSeq disk d 0 N = byteSeq disk d 0 ls.sum by rw [hsum]]
    exact hro
  · intro x y a l hg hlog
    have h1 := read_data_pure disk (setCursor d x y) a l
      (by rwa [setCursor_file_cluster]) hg
      (by rwa [setCursor_cluster_bits, setCursor_logical_sector_bits])
    rwa [fresh_setCursor] at h1

theorem c4_reader_purity_witness :
    (∃ dEnd, readsOk disk1 (fresh dA) (partPairs 0 [7, 33]) =
        some ([48, 49, 50, 51, 52, 53, 54, 55, 56, 57] ++ List.replicate 30 0, dEnd)) ∧
    (∀ x y a l, goodCur disk1 (setCursor dA x y) →
        a >>> (dA.cluster_bits + dA.logical_sector_bits + 9) < 4294967295 →
        rdView (grub_fat_read_data disk1 (setCursor dA x y) a l) =
        rdView (grub_fat_read_data disk1 (fresh dA) a l)) :=
  c4_reader_purity disk1 dA (by decide) 40 (by decide) [7, 33] (by decide)
    ([48, 49, 50, 51, 52, 53, 54, 55, 56, 57] ++ List.replicate 30 0) [2]
    (setCursor dA 2 0) (by decide)


/-! ## The label scan against cold per-record reads (C9, C10) -/

theorem rdBytes_of_view {r : RdOut} {bs tr : List Nat}
    (h : rdView r = .ok (bs, tr)) : rdBytes r = some bs := by
  obtain ⟨s, hs⟩ := rdView_ok h
  rw [hs]
  rfl

theorem rdBytes_some {r : RdOut} {bs : List Nat}
    (h : rdBytes r = some bs) : ∃ tr s, r = .ok bs tr s := by
  cases r with
  | err e => exact absurd h (by simp [rdBytes])
  | ok bs' tr s =>
    simp only [rdBytes, Option.some.injEq] at h
    exact ⟨tr, s, by rw [h]⟩

/-- A freshly mounted handle is a reachable read state over itself. -/
theorem stateOk_mount (disk : Disk) (d : FatData)
    (hm : grub_fat_mount disk = .ok d) : stateOk disk d d := by
  by_cases hfc : d.file_cluster = 4294967295
  · exact Or.inl ⟨hfc, rfl⟩
  · obtain ⟨-, -, -, -, -, -, hcur, -⟩ := grub_fat_mount_ok hm
    exact Or.inr ⟨hfc, Or.inl hcur, d.cur_cluster, d.cur_cluster_num, rfl⟩

/-- If the label scan finds a name, it is the 11-byte name of the first
record (by cold per-record reads) whose attribute is exactly 8, and
every earlier record is a full 32-byte record with a nonzero first name
byte and attribute ≠ 8. -/
theorem label_loop_found (disk : Disk) (d : FatData) :
    ∀ fuel k dz name, stateOk disk d dz →
      (32 * (k + fuel)) >>> (d.cluster_bits + d.logical_sector_bits + 9) < 4294967295 →
      grub_fat_label_loop disk dz (32 * k) fuel = some (.found name) →
      ∃ m, k ≤ m ∧
        (∃ bs, rdBytes (grub_fat_read_data disk (fresh d) (32 * m) 32) = some bs ∧
          bs.length = 32 ∧ entName bs 0 ≠ 0 ∧ entAttr bs = 8 ∧ name = labelName bs) ∧
        (∀ j, k ≤ j → j < m →
          ∃ bs, rdBytes (grub_fat_read_data disk (fresh d) (32 * j) 32) = some bs ∧
            bs.length = 32 ∧ entName bs 0 ≠ 0 ∧ entAttr bs ≠ 8) := by
  intro fuel
  induction fuel with
  | zero =>
    intro k dz name hst hlog h
    exact absurd h (by simp [grub_fat_label_loop])
  | succ fuel ih =>
    intro k dz name hst hlog h
    have hlogk : (32 * k) >>> (d.cluster_bits + d.logical_sector_bits + 9) <
        4294967295 :=
      lt_of_le_of_lt (shiftRight_mono _ (by omega)) hlog
    simp only [grub_fat_label_loop] at h
    cases hr : grub_fat_read_data disk dz (32 * k) 32 with
    | err e =>
      rw [hr] at h
      exact absurd h (by simp)
    | ok bs tr dz' =>
      rw [hr] at h
      dsimp only at h
      have hview := stateOk_view disk d dz (32 * k) 32 hst hlogk
      rw [hr] at hview
      dsimp only [rdView] at hview
      have hpure : rdBytes (grub_fat_read_data disk (fresh d) (32 * k) 32) = some bs :=
        rdBytes_of_view hview.symm
      split_ifs at h with h1 h2
      · exact absurd h (by simp)
      · push_neg at h1
        simp only [Option.some.injEq, LabelRes.found.injEq] at h
        refine ⟨k, Nat.le_refl k, ⟨bs, hpure, h1.1, h1.2, h2, h.symm⟩, ?_⟩
        intro j hj1 hj2
        omega
      · have hst' : stateOk disk d dz' := stateOk_step disk d dz (32 * k) 32 hst hlogk hr
        rw [show 32 * k + 32 = 32 * (k + 1) by omega] at h
        obtain ⟨m, hkm, hfound, hprior⟩ := ih (k + 1) dz' name hst'
          (by rw [show k + 1 + fuel = k + (fuel + 1) by omega]; exact hlog) h
        refine ⟨m, by omega, hfound, ?_⟩
        intro j hj1 hj2
        by_cases hjk : j = k
        · subst hjk
          push_neg at h1
          exact ⟨bs, hpure, h1.1, h1.2, h2⟩
        · exact hprior j (by omega) hj2

/-- If the label scan ends with no label, a terminator record (short
read or zero first name byte) was reached, with every earlier record a
full non-terminator record of attribute ≠ 8. -/
theorem label_loop_noLabel (disk : Disk) (d : FatData) :
    ∀ fuel k dz, stateOk disk d dz →
      (32 * (k + fuel)) >>> (d.cluster_bits + d.logical_sector_bits + 9) < 4294967295 →
      grub_fat_label_loop disk dz (32 * k) fuel = some .noLabel →
      ∃ m, k ≤ m ∧
        (∃ bs, rdBytes (grub_fat_read_data disk (fresh d) (32 * m) 32) = some bs ∧
          (bs.length ≠ 32 ∨ entName bs 0 = 0)) ∧
        (∀ j, k ≤ j → j < m →
          ∃ bs, rdBytes (grub_fat_read_data disk (fresh d) (32 * j) 32) = some bs ∧
            bs.length = 32 ∧ entName bs 0 ≠ 0 ∧ entAttr bs ≠ 8) := by
  intro fuel
  induction fuel with
  | zero =>
    intro k dz hst hlog h
    exact absurd h (by simp [grub_fat_label_loop])
  | succ fuel ih =>
    intro k dz hst hlog h
    have hlogk : (32 * k) >>> (d.cluster_bits + d.logical_sector_bits + 9) <
        4294967295 :=
      lt_of_le_of_lt (shiftRight_mono _ (by omega)) hlog
    simp only [grub_fat_label_loop] at h
    cases hr : grub_fat_read_data disk dz (32 * k) 32 with
    | err e =>
      rw [hr] at h
      exact absurd h (by simp)
    | ok bs tr dz' =>
      rw [hr] at h
      dsimp only at h
      have hview := stateOk_view disk d dz (32 * k) 32 hst hlogk
      rw [hr] at hview
      dsimp only [rdView] at hview
      have hpure : rdBytes (grub_fat_read_data disk (fresh d) (32 * k) 32) = some bs :=
        rdBytes_of_view hview.symm
      split_ifs at h with h1 h2
      · refine ⟨k, Nat.le_refl k, ⟨bs, hpure, h1⟩, ?_⟩
        intro j hj1 hj2
        omega
      · exact absurd h (by simp)
      · have hst' : stateOk disk d dz' := stateOk_step disk d dz (32 * k) 32 hst hlogk hr
        rw [show 32 * k + 32 = 32 * (k + 1) by omega] at h
        obtain ⟨m, hkm, hterm, hprior⟩ := ih (k + 1) dz' hst'
          (by rw [show k + 1 + fuel = k + (fuel + 1) by omega]; exact hlog) h
        refine ⟨m, by omega, hterm, ?_⟩
        intro j hj1 hj2
        by_cases hjk : j = k
        · subst hjk
          push_neg at h1
          exact ⟨bs, hpure, h1.1, h1.2, h2⟩
        · exact hprior j (by omega) hj2

/-- Conversely the scan reaches and adopts record `m` when the records
before it are all full non-terminator records of attribute ≠ 8 and
record `m` is a full non-terminator record of attribute exactly 8 — its
first name byte is never compared against 0xE5. -/
theorem label_loop_advance (disk : Disk) (d : FatData) :
    ∀ fuel k dz m bsm, stateOk disk d dz →
      (32 * (k + fuel)) >>> (d.cluster_bits + d.logical_sector_bits + 9) < 4294967295 →
      k ≤ m → m < k + fuel →
      (∀ j, k ≤ j → j < m →
        ∃ bs, rdBytes (grub_fat_read_data disk (fresh d) (32 * j) 32) = some bs ∧
          bs.length = 32 ∧ entName bs 0 ≠ 0 ∧ entAttr bs ≠ 8) →
      rdBytes (grub_fat_read_data disk (fresh d) (32 * m) 32) = some bsm →
      bsm.length = 32 → entName bsm 0 ≠ 0 → entAttr bsm = 8 →
      grub_fat_label_loop disk dz (32 * k) fuel = some (.found (labelName bsm)) := by
  intro fuel
  induction fuel with
  | zero =>
    intro k dz m bsm hst hlog hkm hmf hprior hbm hlen hnz hattr
    omega
  | succ fuel ih =>
    intro k dz m bsm hst hlog hkm hmf hprior hbm hlen hnz hattr
    have hlogk : (32 * k) >>> (d.cluster_bits + d.logical_sector_bits + 9) <
        4294967295 :=
      lt_of_le_of_lt (shiftRight_mono _ (by omega)) hlog
    by_cases hkm2 : k = m
    · subst hkm2
      obtain ⟨trm, sm, hfr⟩ := rdBytes_some hbm
      have hview := stateOk_view disk d dz (32 * k) 32 hst hlogk
      rw [hfr] at hview
      dsimp only [rdView] at hview
      obtain ⟨dz', hdz⟩ := rdView_ok hview
      simp only [grub_fat_label_loop, hdz]
      rw [if_neg (by push_neg; exact ⟨hlen, hnz⟩),
          if_pos (show bsm.getD 11 0 = 8 from hattr)]
    · obtain ⟨bsk, hbk, hlk, hnk, hak⟩ := hprior k (Nat.le_refl k) (by omega)
      obtain ⟨trk, sk, hfrk⟩ := rdBytes_some hbk
      have hview := stateOk_view disk d dz (32 * k) 32 hst hlogk
      rw [hfrk] at hview
      dsimp only [rdView] at hview
      obtain ⟨dz', hdz⟩ := rdView_ok hview
      have hst' : stateOk disk d dz' := stateOk_step disk d dz (32 * k) 32 hst hlogk hdz
      simp only [grub_fat_label_loop, hdz]
      rw [if_neg (by push_neg; exact ⟨hlk, hnk⟩),
          if_neg (show ¬(bsk.getD 11 0 = 8) from hak)]
      rw [show 32 * k + 32 = 32 * (k + 1) by omega]
      exact ih (k + 1) dz' m bsm hst'
        (by rw [show k + 1 + fuel = k + (fuel + 1) by omega]; exact hlog)
        (by omega) (by omega)
        (fun j hj1 hj2 => hprior j (by omega) hj2) hbm hlen hnz hattr


/-- C9 (confirmed; `grub_strndup` is modelled from the spec as the
record's 11-byte name field): on a mounted volume that passes the root
attribute check, if the label operation finds a name it is the 11-byte
name field of the first root-directory record (under cold per-record
reads) whose attribute byte equals 8 exactly, every earlier record being
a full 32-byte record with nonzero first name byte and attribute ≠ 8;
and if it reports no label, end-of-directory — a short read or a record
with first name byte 0 — was reached before any such record, with no
error. -/
theorem c9_label_volume_id (disk : Disk) (fuel : Nat) (d : FatData)
    (hm : grub_fat_mount disk = .ok d) (hdir : ¬(d.attr &&& 0x10 = 0))
    (hlog : (32 * fuel) >>> (d.cluster_bits + d.logical_sector_bits + 9) < 4294967295) :
    (∀ name, grub_fat_label disk fuel = some (.found name) →
      ∃ m, (∃ bs, rdBytes (grub_fat_read_data disk (fresh d) (32 * m) 32) = some bs ∧
          bs.length = 32 ∧ entName bs 0 ≠ 0 ∧ entAttr bs = 8 ∧ name = labelName bs) ∧
        ∀ j, j < m →
          ∃ bs, rdBytes (grub_fat_read_data disk (fresh d) (32 * j) 32) = some bs ∧
            bs.length = 32 ∧ entName bs 0 ≠ 0 ∧ entAttr bs ≠ 8) ∧
    (grub_fat_label disk fuel = some .noLabel →
      ∃ m, (∃ bs, rdBytes (grub_fat_read_data disk (fresh d) (32 * m) 32) = some bs ∧
          (bs.length ≠ 32 ∨ entName bs 0 = 0)) ∧
        ∀ j, j < m →
          ∃ bs, rdBytes (grub_fat_read_data disk (fresh d) (32 * j) 32) = some bs ∧
            bs.length = 32 ∧ entName bs 0 ≠ 0 ∧ entAttr bs ≠ 8) := by
  have hlab : grub_fat_label disk fuel = grub_fat_label_loop disk d (32 * 0) fuel := by
    simp only [grub_fat_label, hm]
    rw [if_neg hdir]
  constructor
  · intro name h
    rw [hlab] at h
    obtain ⟨m, -, hfound, hprior⟩ := label_loop_found disk d fuel 0 d name
      (stateOk_mount disk d hm) (by rw [Nat.zero_add]; exact hlog) h
    exact ⟨m, hfound, fun j hj => hprior j (Nat.zero_le j) hj⟩
  · intro h
    rw [hlab] at h
    obtain ⟨m, -, hterm, hprior⟩ := label_loop_noLabel disk d fuel 0 d
      (stateOk_mount disk d hm) (by rw [Nat.zero_add]; exact hlog) h
    exact ⟨m, hterm, fun j hj => hprior j (Nat.zero_le j) hj⟩

theorem c9_label_volume_id_witness :
    ∃ m, (∃ bs, rdBytes (grub_fat_read_data disk1 (fresh (mountOr disk1))
            (32 * m) 32) = some bs ∧
        bs.length = 32 ∧ entName bs 0 ≠ 0 ∧ entAttr bs = 8 ∧
        labelName (rootV1.take 32) = labelName bs) ∧
      ∀ j, j < m →
        ∃ bs, rdBytes (grub_fat_read_data disk1 (fresh (mountOr disk1))
            (32 * j) 32) = some bs ∧
          bs.length = 32 ∧ entName bs 0 ≠ 0 ∧ entAttr bs ≠ 8 :=
  (c9_label_volume_id disk1 4 (mountOr disk1) (by decide) (by decide) (by decide)).1
    (labelName (rootV1.take 32)) (by decide)

/-- C10 (confirmed): the label scan applies no deleted-entry filter.  A
record whose attribute byte is exactly 8 is adopted even when its first
name byte is 0xE5 (a deleted entry), and its raw name — 0xE5 included —
is returned; conversely whenever a name is found, every record the scan
skipped was skipped for its attribute byte alone (it was a full record
with nonzero first name byte and attribute ≠ 8, never a 0xE5 test). -/
theorem c10_no_deleted_filter (disk : Disk) (fuel : Nat) (d : FatData)
    (hm : grub_fat_mount disk = .ok d) (hdir : ¬(d.attr &&& 0x10 = 0))
    (hlog : (32 * fuel) >>> (d.cluster_bits + d.logical_sector_bits + 9) < 4294967295) :
    (∀ m bsm, m < fuel →
      (∀ j, j < m →
        ∃ bs, rdBytes (grub_fat_read_data disk (fresh d) (32 * j) 32) = some bs ∧
          bs.length = 32 ∧ entName bs 0 ≠ 0 ∧ entAttr bs ≠ 8) →
      rdBytes (grub_fat_read_data disk (fresh d) (32 * m) 32) = some bsm →
      bsm.length = 32 → entName bsm 0 = 0xe5 → entAttr bsm = 8 →
      grub_fat_label disk fuel = some (.found (labelName bsm))) ∧
    (∀ name, grub_fat_label disk fuel = some (.found name) →
      ∃ m, ∀ j, j < m →
        ∃ bs, rdBytes (grub_fat_read_data disk (fresh d) (32 * j) 32) = some bs ∧
          bs.length = 32 ∧ entName bs 0 ≠ 0 ∧ entAttr bs ≠ 8) := by
  have hlab : grub_fat_label disk fuel = grub_fat_label_loop disk d (32 * 0) fuel := by
    simp only [grub_fat_label, hm]
    rw [if_neg hdir]
  constructor
  · intro m bsm hmf hprior hbm hlen hdel hattr
    rw [hlab]
    exact label_loop_advance disk d fuel 0 d m bsm (stateOk_mount disk d hm)
      (by rw [Nat.zero_add]; exact hlog) (Nat.zero_le m) (by omega)
      (fun j hj1 hj2 => hprior j hj2) hbm hlen (by rw [hdel]; omega) hattr
  · intro name h
    rw [hlab] at h
    obtain ⟨m, -, -, hprior⟩ := label_loop_found disk d fuel 0 d name
      (stateOk_mount disk d hm) (by rw [Nat.zero_add]; exact hlog) h
    exact ⟨m, fun j hj => hprior j (Nat.zero_le j) hj⟩

theorem c10_no_deleted_filter_witness :
    grub_fat_label disk1 4 = some (.found (labelName (rootV1.take 32))) :=
  (c10_no_deleted_filter disk1 4 (mountOr disk1) (by decide) (by decide) (by decide)).1
    0 (rootV1.take 32) (by decide) (fun j hj => absurd hj (Nat.not_lt_zero j))
    (by decide) (by decide) (by decide) (by decide)

end Fat
